import Mathlib

/-!
Verification development for the SillyTavern llama.cpp KV-cache manager
extension.  Strings are modelled as `List Char`; the filename scheme,
rotation, snapshot lookup, the generation interceptor, the auto-save
counter, cache operations and the preload orchestrator are embedded as
executable Lean functions mirroring the JavaScript sources, with the
backend/persistence collaborators supplied as explicit outcome oracles.
-/

namespace KVCache

/-- Strings are modelled as lists of characters. -/
abbrev Str := List Char

/-- A character kept unchanged by `normalizeString` (JS regex class
`[a-zA-Z0-9_-]` in src/utils/utils.js `normalizeString`). -/
def isValidChar (c : Char) : Bool :=
  (('a' ≤ c && c ≤ 'z') || ('A' ≤ c && c ≤ 'Z') || ('0' ≤ c && c ≤ '9')
    || c = '_' || c = '-')

/-- One character of `normalizeString`: invalid characters become `'_'`. -/
def normChar (c : Char) : Char := if isValidChar c then c else '_'

/-- src/utils/utils.js `normalizeString` on a (non-empty-handled) string:
replaces all invalid characters with underscores. -/
def normalizeString (s : Str) : Str := s.map normChar

/-- src/utils/utils.js `normalizeChatId`: empty (falsy) input yields the
default `"unknown"`, otherwise the normalized string. -/
def normalizeChatId (s : Str) : Str :=
  if s = [] then ("unknown").data else normalizeString s

/-- src/utils/utils.js `normalizeCharacterName`: default value is the
empty string. -/
def normalizeCharacterName (s : Str) : Str := normalizeString s

/-- The `_character_` filename marker. -/
def CHAR_MARK : Str := ("_character_").data

/-- The `_tag_` filename marker. -/
def TAG_MARK : Str := ("_tag_").data

/-- The `.bin` filename extension. -/
def BIN_EXT : Str := (".bin").data

/-- Boolean "p is a prefix of s" on character lists. -/
def isPre : Str → Str → Bool
  | [], _ => true
  | _ :: _, [] => false
  | a :: p, b :: s => a = b && isPre p s

/-- Boolean "s ends with p" (JS `String.prototype.endsWith` semantics). -/
def endsWithL (s p : Str) : Bool :=
  decide (s.drop (s.length - p.length) = p)

/-- Boolean "pat occurs somewhere in s" (JS `String.prototype.includes`). -/
def containsL (pat : Str) : Str → Bool
  | [] => isPre pat []
  | c :: rest => isPre pat (c :: rest) || containsL pat rest

/-- A JavaScript line terminator (LF, CR, U+2028, U+2029): the characters
the regex metacharacter `.` never matches when, as in
src/core/file-manager.js, the `s` flag is absent. -/
def isLineTerm (c : Char) : Bool :=
  c = '\n' || c = '\r' || c = '\u2028' || c = '\u2029'

/-- The string contains no line terminator, i.e. JS `.` can match each of
its characters. -/
def noLT (s : Str) : Bool := s.all (fun c => !isLineTerm c)

/-- Split at the first occurrence of `pat` whose remainder up to the end of
the string is non-empty and free of line terminators, returning the part
before and that remainder; this is the semantics of the JS regexes
`_character_(.+)$` and `_tag_(.+)$` in src/core/file-manager.js
`parseSaveFilename`: the engine scans left to right, `(.+)` requires at
least one character and `.` cannot cross a line terminator, and `$` (no
`m` flag) anchors at the end of the string. -/
def splitFirstNE (pat : Str) : Str → Option (Str × Str)
  | [] => none
  | c :: rest =>
    if isPre pat (c :: rest) && !((c :: rest).drop pat.length).isEmpty
        && noLT ((c :: rest).drop pat.length) then
      some ([], (c :: rest).drop pat.length)
    else
      match splitFirstNE pat rest with
      | some (b, a) => some (c :: b, a)
      | none => none

/-- The JS regex `_(\d{14})$` of `parseSaveFilename`: the string must end
with an underscore followed by exactly 14 digits; returns the part before
the underscore and the 14-digit timestamp. -/
def parseTimestampEnd (s : Str) : Option (Str × Str) :=
  if 15 ≤ s.length then
    match s.drop (s.length - 15) with
    | c :: ds =>
      if c = '_' && ds.all Char.isDigit then
        some (s.take (s.length - 15), ds)
      else none
    | [] => none
  else none

/-- JS `filename.replace(/\.bin$/, '')`: strip one trailing `.bin`. -/
def stripBin (s : Str) : Str :=
  if endsWithL s BIN_EXT then s.take (s.length - 4) else s

/-- Result record of `parseSaveFilename`. -/
structure ParsedFilename where
  chatId : Str
  timestamp : Str
  tag : Option Str
  characterName : Str
deriving DecidableEq, Repr

/-- src/core/file-manager.js `generateSaveFilename`:
`{chatId}_{timestamp}_character_{characterName}.bin`, or with
`_tag_{tag}` inserted when a non-empty tag is given.  The chat id is
normalized, the tag is normalized, the character name is used as-is. -/
def generateSaveFilename (chatId timestamp characterName : Str)
    (tag : Option Str := none) : Str :=
  let safeChatId := normalizeChatId chatId
  match tag with
  | some t =>
    if t ≠ [] then
      safeChatId ++ '_' :: timestamp ++ TAG_MARK ++ normalizeString t
        ++ CHAR_MARK ++ characterName ++ BIN_EXT
    else
      safeChatId ++ '_' :: timestamp ++ CHAR_MARK ++ characterName ++ BIN_EXT
  | none =>
      safeChatId ++ '_' :: timestamp ++ CHAR_MARK ++ characterName ++ BIN_EXT

/-- src/core/file-manager.js `parseSaveFilename`: strip `.bin`, split at
the first `_character_` with non-empty remainder, then split the head at
the first `_tag_` with non-empty remainder, then require a trailing
`_` + 14-digit timestamp; `none` on any failure. -/
def parseSaveFilename (filename : Str) : Option ParsedFilename :=
  let nameWithoutExt := stripBin filename
  match splitFirstNE CHAR_MARK nameWithoutExt with
  | none => none
  | some (beforeChar, characterName) =>
    let tagSplit := splitFirstNE TAG_MARK beforeChar
    let tag : Option Str := (tagSplit.map Prod.snd)
    let beforeSuffix := match tagSplit with
      | some (b, _) => b
      | none => beforeChar
    match parseTimestampEnd beforeSuffix with
    | none => none
    | some (chatId, timestamp) =>
      some ⟨chatId, timestamp, tag, characterName⟩

end KVCache

namespace KVCache

/-! ### Basic facts about `isPre`, `containsL`, `endsWithL` -/

theorem isPre_iff_take (p : Str) : ∀ s : Str, isPre p s = true ↔ s.take p.length = p := by
  induction p with
  | nil => intro s; simp [isPre]
  | cons a p ih =>
    intro s
    cases s with
    | nil => simp [isPre]
    | cons b s =>
      simp only [isPre, List.length_cons, List.take_succ_cons, Bool.and_eq_true,
        decide_eq_true_eq, List.cons.injEq]
      constructor
      · rintro ⟨h1, h2⟩; exact ⟨h1.symm, (ih s).1 h2⟩
      · rintro ⟨h1, h2⟩; exact ⟨h1.symm, (ih s).2 h2⟩

theorem isPre_length_le (p s : Str) (h : isPre p s = true) : p.length ≤ s.length := by
  have := (isPre_iff_take p s).1 h
  have hl : (s.take p.length).length = p.length := by rw [this]
  simp only [List.length_take] at hl
  omega

theorem isPre_nil_false (p : Str) (hp : p ≠ []) : isPre p [] = false := by
  cases p with
  | nil => exact absurd rfl hp
  | cons a q => rfl

theorem isPre_append_self (p b : Str) : isPre p (p ++ b) = true := by
  rw [isPre_iff_take]
  rw [List.take_append_eq_append_take]
  simp

theorem isPre_head_eq (p s : Str) (hp : p ≠ []) (h : isPre p s = true) :
    p.headD ' ' = s.headD ' ' := by
  cases p with
  | nil => exact absurd rfl hp
  | cons a q =>
    cases s with
    | nil => simp [isPre] at h
    | cons b t =>
      simp only [isPre, Bool.and_eq_true, decide_eq_true_eq] at h
      simp [h.1]

theorem isPre_append_cases (p u v : Str) (h : isPre p (u ++ v) = true) :
    (p.length ≤ u.length ∧ isPre p u = true) ∨
    (u.length < p.length ∧ u = p.take u.length ∧ isPre (p.drop u.length) v = true) := by
  have ht := (isPre_iff_take p (u ++ v)).1 h
  rw [List.take_append_eq_append_take] at ht
  by_cases hl : p.length ≤ u.length
  · left
    refine ⟨hl, ?_⟩
    rw [isPre_iff_take]
    have : p.length - u.length = 0 := by omega
    rw [this] at ht
    simpa using ht
  · right
    push_neg at hl
    rw [List.take_of_length_le (Nat.le_of_lt hl)] at ht
    refine ⟨hl, ?_, ?_⟩
    · have := congrArg (List.take u.length) ht
      rw [List.take_left] at this
      exact this
    · rw [isPre_iff_take]
      have hd := congrArg (List.drop u.length) ht
      rw [List.drop_left] at hd
      have hlen : (p.drop u.length).length = p.length - u.length := by
        simp [List.length_drop]
      rw [hlen, hd]

theorem occ_shift (p x y : Str) (i : Nat) (hi : x.length ≤ i)
    (h : isPre p ((x ++ y).drop i) = true) :
    isPre p (y.drop (i - x.length)) = true := by
  rw [List.drop_append_eq_append_drop] at h
  rwa [List.drop_eq_nil_of_le hi, List.nil_append] at h

theorem occ_in_append (p x y : Str) (i : Nat) (hi : i < x.length)
    (h : isPre p ((x ++ y).drop i) = true) :
    (i + p.length ≤ x.length ∧ isPre p (x.drop i) = true) ∨
    (x.length < i + p.length ∧ x.drop i = p.take (x.length - i) ∧
      isPre (p.drop (x.length - i)) y = true) := by
  rw [List.drop_append_eq_append_drop] at h
  have h0 : i - x.length = 0 := by omega
  rw [h0, List.drop_zero] at h
  rcases isPre_append_cases p (x.drop i) y h with ⟨hl, hp⟩ | ⟨hl, he, hp⟩
  · left
    constructor
    · simp only [List.length_drop] at hl; omega
    · exact hp
  · right
    simp only [List.length_drop] at hl he hp
    exact ⟨by omega, he, hp⟩

theorem containsL_of_occ (p s : Str) (hp : p ≠ []) :
    ∀ i : Nat, isPre p (s.drop i) = true → containsL p s = true := by
  induction s with
  | nil =>
    intro i h
    rw [List.drop_nil] at h
    rw [isPre_nil_false p hp] at h
    exact absurd h (by simp)
  | cons c rest ih =>
    intro i h
    cases i with
    | zero =>
      simp only [List.drop_zero] at h
      simp [containsL, h]
    | succ j =>
      simp only [List.drop_succ_cons] at h
      simp [containsL, ih j h]

end KVCache

namespace KVCache

/-! ### No-occurrence lemmas for the filename markers -/

theorem isPre_false_of_digit_head (p : Str) (hp : p ≠ [])
    (hhead : (p.headD ' ').isDigit = false)
    (T z : Str) (hT : T.all Char.isDigit = true) (m : Nat) (hm : m < T.length) :
    isPre p ((T ++ z).drop m) = false := by
  by_contra hcon
  rw [Bool.not_eq_false] at hcon
  have hd : T.drop m ≠ [] := by
    intro he
    have := congrArg List.length he
    simp only [List.length_drop, List.length_nil] at this
    omega
  rw [List.drop_append_eq_append_drop] at hcon
  have hm0 : m - T.length = 0 := by omega
  rw [hm0, List.drop_zero] at hcon
  obtain ⟨d, rest, hdr⟩ := List.exists_cons_of_ne_nil hd
  rw [hdr] at hcon
  have hdm : d ∈ T := by
    have : d ∈ T.drop m := by rw [hdr]; exact List.mem_cons_self d rest
    exact List.mem_of_mem_drop this
  have hdig : d.isDigit = true := by
    rw [List.all_eq_true] at hT
    exact hT d hdm
  have := isPre_head_eq p (d :: (rest ++ z)) hp (by simpa using hcon)
  simp only [List.headD_cons] at this
  rw [this] at hhead
  rw [hdig] at hhead
  exact absurd hhead (by simp)

theorem charMark_ne_nil : CHAR_MARK ≠ [] := by decide

theorem tagMark_ne_nil : TAG_MARK ≠ [] := by decide

theorem charMark_drop_head : ∀ k < 11, 0 < k →
    (CHAR_MARK.drop k).headD ' ' = '_' → k = 10 := by decide

theorem tagMark_drop_head : ∀ k < 5, 0 < k →
    (TAG_MARK.drop k).headD ' ' = '_' → k = 4 := by decide

theorem splitFirstNE_append (pat : Str) (hpat : pat ≠ []) :
    ∀ a b : Str, b ≠ [] → noLT b = true →
    (∀ i < a.length, isPre pat ((a ++ (pat ++ b)).drop i) = false) →
    splitFirstNE pat (a ++ (pat ++ b)) = some (a, b) := by
  intro a
  induction a with
  | nil =>
    intro b hb hbLT _
    rw [List.nil_append]
    obtain ⟨p0, pr, hp⟩ := List.exists_cons_of_ne_nil hpat
    rw [hp]
    show splitFirstNE (p0 :: pr) ((p0 :: pr) ++ b) = some ([], b)
    rw [show (p0 :: pr) ++ b = p0 :: (pr ++ b) from rfl]
    rw [splitFirstNE]
    have h1 : isPre (p0 :: pr) (p0 :: (pr ++ b)) = true := by
      rw [show p0 :: (pr ++ b) = (p0 :: pr) ++ b from rfl]
      exact isPre_append_self _ _
    have h2 : (p0 :: (pr ++ b)).drop (p0 :: pr).length = b := by
      rw [show p0 :: (pr ++ b) = (p0 :: pr) ++ b from rfl]
      exact List.drop_left _ _
    rw [h1, h2]
    simp [hb, hbLT]
  | cons c a' ih =>
    intro b hb hbLT hno
    have h0 : isPre pat (c :: (a' ++ (pat ++ b))) = false := by
      have := hno 0 (by simp)
      rwa [List.drop_zero, List.cons_append] at this
    have hrec : splitFirstNE pat (a' ++ (pat ++ b)) = some (a', b) := by
      refine ih b hb hbLT ?_
      intro i hi
      have := hno (i + 1) (by simp only [List.length_cons]; omega)
      rwa [List.cons_append, List.drop_succ_cons] at this
    rw [List.cons_append, splitFirstNE, h0, hrec]
    simp

theorem splitFirstNE_eq_none (pat : Str) :
    ∀ s : Str, (∀ i, isPre pat (s.drop i) = false) → splitFirstNE pat s = none := by
  intro s
  induction s with
  | nil => intro _; rfl
  | cons c rest ih =>
    intro hno
    have h0 := hno 0
    rw [List.drop_zero] at h0
    have hrec : splitFirstNE pat rest = none :=
      ih (fun i => by
        have := hno (i + 1)
        rwa [List.drop_succ_cons] at this)
    rw [splitFirstNE, h0, hrec]
    simp

theorem isLineTerm_eq_false_of_valid (c : Char) (h : isValidChar c = true) :
    isLineTerm c = false := by
  by_contra hlt
  rw [Bool.not_eq_false, isLineTerm] at hlt
  simp only [Bool.or_eq_true, decide_eq_true_eq] at hlt
  rcases hlt with ((rfl | rfl) | rfl) | rfl <;> simp [isValidChar] at h

/-- `normalizeString` output never contains a line terminator: every kept
character is in `[a-zA-Z0-9_-]` and every other character becomes `'_'`. -/
theorem noLT_normalizeString (s : Str) : noLT (normalizeString s) = true := by
  rw [noLT, normalizeString, List.all_map, List.all_eq_true]
  intro c _
  simp only [Function.comp_apply, Bool.not_eq_true']
  rw [normChar]
  by_cases h : isValidChar c = true
  · rw [if_pos h]
    exact isLineTerm_eq_false_of_valid c h
  · rw [if_neg h]
    decide


theorem isPre_cons_cons (a : Char) (p : Str) (b : Char) (s : Str)
    (h : isPre (a :: p) (b :: s) = true) : a = b ∧ isPre p s = true := by
  simp only [isPre, Bool.and_eq_true, decide_eq_true_eq] at h
  exact h

/-- No occurrence of a marker pattern (starting with underscore, second
character not a digit) can begin strictly before the end of the
`chatId_timestamp` region of a generated filename. -/
theorem no_occ_head_region (pat : Str) (hpat : pat ≠ [])
    (hpat_head : pat.headD ' ' = '_')
    (hpat2ne : pat.drop 1 ≠ [])
    (hpat2 : ((pat.drop 1).headD ' ').isDigit = false)
    (S ts M : Str) (hts : ts.all Char.isDigit = true) (htsne : ts ≠ [])
    (hcont : containsL pat S = false)
    (hend : ∀ k, 0 < k → k < pat.length → (pat.drop k).headD ' ' = '_' →
      S.drop (S.length - k) ≠ pat.take k)
    (i : Nat) (hi : i < S.length + 1 + ts.length) :
    isPre pat ((S ++ '_' :: (ts ++ M)).drop i) = false := by
  by_contra hcon
  rw [Bool.not_eq_false] at hcon
  rcases Nat.lt_trichotomy i S.length with hlt | heq | hgt
  · rcases occ_in_append pat S ('_' :: (ts ++ M)) i hlt hcon with
      ⟨_, hin⟩ | ⟨hsp, hseq, hp⟩
    · rw [containsL_of_occ pat S hpat i hin] at hcont
      exact absurd hcont (by simp)
    · set k := S.length - i with hk
      have hk0 : 0 < k := by omega
      have hklt : k < pat.length := by omega
      have hdk : pat.drop k ≠ [] := by
        intro he
        have := congrArg List.length he
        simp only [List.length_drop, List.length_nil] at this
        omega
      by_cases hu : (pat.drop k).headD ' ' = '_'
      · have := hend k hk0 hklt hu
        have hieq : S.length - k = i := by omega
        rw [hieq] at this
        exact this hseq
      · have := isPre_head_eq (pat.drop k) ('_' :: (ts ++ M)) hdk hp
        simp only [List.headD_cons] at this
        exact hu this
  · rw [heq, List.drop_left] at hcon
    obtain ⟨h, t, hpt⟩ := List.exists_cons_of_ne_nil hpat
    rw [hpt] at hcon
    obtain ⟨_, ht⟩ := isPre_cons_cons h t '_' (ts ++ M) hcon
    have htl : t = pat.drop 1 := by rw [hpt]; rfl
    rw [htl] at ht
    have := isPre_false_of_digit_head (pat.drop 1) hpat2ne hpat2 ts M hts 0
      (by cases ts with
          | nil => exact absurd rfl htsne
          | cons a l => simp)
    rw [List.drop_zero] at this
    rw [ht] at this
    exact absurd this (by simp)
  · have h1 : isPre pat (('_' :: (ts ++ M)).drop (i - S.length)) = true :=
      occ_shift pat S ('_' :: (ts ++ M)) i (Nat.le_of_lt hgt) hcon
    have hm : i - S.length = (i - S.length - 1) + 1 := by omega
    rw [hm, List.drop_succ_cons] at h1
    have hpd : (pat.headD ' ').isDigit = false := by
      rw [hpat_head]; decide
    have := isPre_false_of_digit_head pat hpat hpd ts M hts (i - S.length - 1)
      (by omega)
    rw [this] at h1
    exact absurd h1 (by simp)


theorem charTail_drop_head : ∀ g < 10,
    ((("character_").data.drop g).headD ' ' = '_') → g = 9 := by decide

theorem headD_charMark_append (z : Str) : (CHAR_MARK ++ z).headD ' ' = '_' := by
  rw [show CHAR_MARK = '_' :: (("character_").data) from by decide]
  rfl

/-- No occurrence of `_character_` can begin inside the
`_tag_{tag}` region of a generated tagged filename, given the
tag restrictions. -/
theorem no_occ_charMark_tagRegion (G name : Str)
    (hG1 : containsL CHAR_MARK G = false)
    (hG2 : G.drop (G.length - 10) ≠ CHAR_MARK.take 10)
    (hG3 : isPre (("character_").data) G = false)
    (hG4 : G ≠ ("character").data)
    (j : Nat) (hj : j < 5 + G.length) :
    isPre CHAR_MARK ((TAG_MARK ++ (G ++ (CHAR_MARK ++ name))).drop j) = false := by
  by_contra hcon
  rw [Bool.not_eq_false] at hcon
  by_cases hj5 : j < 5
  · rcases occ_in_append CHAR_MARK TAG_MARK (G ++ (CHAR_MARK ++ name)) j
      (by rw [show TAG_MARK.length = 5 from by decide]; omega) hcon with
      ⟨hin, _⟩ | ⟨hsp, hseq, hp⟩
    · rw [show TAG_MARK.length = 5 from by decide,
        show CHAR_MARK.length = 11 from by decide] at hin
      omega
    · interval_cases j
      · exact absurd hseq (by decide)
      · exact absurd hseq (by decide)
      · exact absurd hseq (by decide)
      · exact absurd hseq (by decide)
      · rw [show TAG_MARK.length - 4 = 1 from by decide] at hp
        rw [show CHAR_MARK.drop 1 = ("character_").data from by decide] at hp
        rcases isPre_append_cases (("character_").data) G (CHAR_MARK ++ name) hp with
          ⟨_, hin2⟩ | ⟨hlt2, heq2, hp2⟩
        · rw [hin2] at hG3
          exact absurd hG3 (by simp)
        · rw [show (("character_").data).length = 10 from by decide] at hlt2
          have hdne : (("character_").data).drop G.length ≠ [] := by
            intro he
            have := congrArg List.length he
            simp only [List.length_drop, List.length_nil,
              show (("character_").data).length = 10 from by decide] at this
            omega
          have hhd := isPre_head_eq _ _ hdne hp2
          rw [headD_charMark_append] at hhd
          have hg9 := charTail_drop_head G.length hlt2 hhd
          rw [hg9] at heq2
          rw [show (("character_").data).take 9 = ("character").data from by decide]
            at heq2
          exact hG4 heq2
  · have hq : isPre CHAR_MARK ((G ++ (CHAR_MARK ++ name)).drop (j - TAG_MARK.length))
        = true := occ_shift CHAR_MARK TAG_MARK (G ++ (CHAR_MARK ++ name)) j
      (by rw [show TAG_MARK.length = 5 from by decide]; omega) hcon
    rw [show TAG_MARK.length = 5 from by decide] at hq
    have hqlt : j - 5 < G.length := by omega
    rcases occ_in_append CHAR_MARK G (CHAR_MARK ++ name) (j - 5) hqlt hq with
      ⟨_, hin⟩ | ⟨hsp, hseq, hp⟩
    · rw [containsL_of_occ CHAR_MARK G charMark_ne_nil _ hin] at hG1
      exact absurd hG1 (by simp)
    · rw [show CHAR_MARK.length = 11 from by decide] at hsp
      have hdk : CHAR_MARK.drop (G.length - (j - 5)) ≠ [] := by
        intro he
        have hlen := congrArg List.length he
        simp only [List.length_drop, List.length_nil] at hlen
        rw [show CHAR_MARK.length = 11 from by decide] at hlen
        omega
      have hhd := isPre_head_eq _ _ hdk hp
      rw [headD_charMark_append] at hhd
      have hk10 := charMark_drop_head (G.length - (j - 5)) (by omega) (by omega) hhd
      have hq10 : j - 5 = G.length - 10 := by omega
      rw [hk10] at hseq
      rw [hq10] at hseq
      exact hG2 hseq


theorem endsWithL_false_iff (s p : Str) :
    endsWithL s p = false ↔ s.drop (s.length - p.length) ≠ p := by
  simp [endsWithL]

theorem noEarly_charMark_noTag (S ts name : Str)
    (hts : ts.all Char.isDigit = true) (htsne : ts ≠ [])
    (hS1 : containsL CHAR_MARK S = false)
    (hS3 : S.drop (S.length - 10) ≠ CHAR_MARK.take 10) :
    ∀ i < (S ++ '_' :: ts).length,
      isPre CHAR_MARK (((S ++ '_' :: ts) ++ (CHAR_MARK ++ name)).drop i) = false := by
  intro i hi
  have hshape : (S ++ '_' :: ts) ++ (CHAR_MARK ++ name)
      = S ++ '_' :: (ts ++ (CHAR_MARK ++ name)) := by
    simp [List.append_assoc]
  rw [hshape]
  refine no_occ_head_region CHAR_MARK (by decide) (by decide) (by decide) (by decide)
    S ts (CHAR_MARK ++ name) hts htsne hS1 ?_ i ?_
  · intro k hk0 hklt hu
    rw [show CHAR_MARK.length = 11 from by decide] at hklt
    have hk := charMark_drop_head k hklt hk0 hu
    rw [hk]
    exact hS3
  · simp only [List.length_append, List.length_cons] at hi
    omega

theorem noEarly_tagMark_head (S ts G : Str)
    (hts : ts.all Char.isDigit = true) (htsne : ts ≠ [])
    (hS2 : containsL TAG_MARK S = false)
    (hS4 : S.drop (S.length - 4) ≠ TAG_MARK.take 4) :
    ∀ i < (S ++ '_' :: ts).length,
      isPre TAG_MARK (((S ++ '_' :: ts) ++ (TAG_MARK ++ G)).drop i) = false := by
  intro i hi
  have hshape : (S ++ '_' :: ts) ++ (TAG_MARK ++ G)
      = S ++ '_' :: (ts ++ (TAG_MARK ++ G)) := by
    simp [List.append_assoc]
  rw [hshape]
  refine no_occ_head_region TAG_MARK (by decide) (by decide) (by decide) (by decide)
    S ts (TAG_MARK ++ G) hts htsne hS2 ?_ i ?_
  · intro k hk0 hklt hu
    rw [show TAG_MARK.length = 5 from by decide] at hklt
    have hk := tagMark_drop_head k hklt hk0 hu
    rw [hk]
    exact hS4
  · simp only [List.length_append, List.length_cons] at hi
    omega

theorem noOcc_tagMark_noTag (S ts : Str)
    (hts : ts.all Char.isDigit = true) (htsne : ts ≠ [])
    (hS2 : containsL TAG_MARK S = false)
    (hS4 : S.drop (S.length - 4) ≠ TAG_MARK.take 4) :
    ∀ i, isPre TAG_MARK ((S ++ '_' :: ts).drop i) = false := by
  intro i
  by_cases hsmall : i < S.length + 1 + ts.length
  · have hshape : S ++ '_' :: ts = S ++ '_' :: (ts ++ ([] : Str)) := by simp
    rw [hshape]
    refine no_occ_head_region TAG_MARK (by decide) (by decide) (by decide) (by decide)
      S ts [] hts htsne hS2 ?_ i hsmall
    intro k hk0 hklt hu
    rw [show TAG_MARK.length = 5 from by decide] at hklt
    have hk := tagMark_drop_head k hklt hk0 hu
    rw [hk]
    exact hS4
  · have hlen : (S ++ '_' :: ts).length = S.length + 1 + ts.length := by
      simp only [List.length_append, List.length_cons]
      omega
    have hd : (S ++ '_' :: ts).drop i = [] := by
      apply List.drop_eq_nil_of_le
      omega
    rw [hd]
    exact isPre_nil_false TAG_MARK tagMark_ne_nil

theorem noEarly_charMark_tag (S ts G name : Str)
    (hts : ts.all Char.isDigit = true) (htsne : ts ≠ [])
    (hS1 : containsL CHAR_MARK S = false)
    (hS3 : S.drop (S.length - 10) ≠ CHAR_MARK.take 10)
    (hG1 : containsL CHAR_MARK G = false)
    (hG2 : G.drop (G.length - 10) ≠ CHAR_MARK.take 10)
    (hG3 : isPre (("character_").data) G = false)
    (hG4 : G ≠ ("character").data) :
    ∀ i < (S ++ '_' :: (ts ++ (TAG_MARK ++ G))).length,
      isPre CHAR_MARK (((S ++ '_' :: (ts ++ (TAG_MARK ++ G))) ++ (CHAR_MARK ++ name)).drop i)
        = false := by
  intro i hi
  have hlen : (S ++ '_' :: (ts ++ (TAG_MARK ++ G))).length
      = S.length + 1 + ts.length + 5 + G.length := by
    simp only [List.length_append, List.length_cons,
      show TAG_MARK.length = 5 from by decide]
    omega
  rw [hlen] at hi
  have hshape : (S ++ '_' :: (ts ++ (TAG_MARK ++ G))) ++ (CHAR_MARK ++ name)
      = S ++ '_' :: (ts ++ (TAG_MARK ++ (G ++ (CHAR_MARK ++ name)))) := by
    simp [List.append_assoc]
  rw [hshape]
  by_cases hsmall : i < S.length + 1 + ts.length
  · refine no_occ_head_region CHAR_MARK (by decide) (by decide) (by decide) (by decide)
      S ts (TAG_MARK ++ (G ++ (CHAR_MARK ++ name))) hts htsne hS1 ?_ i hsmall
    intro k hk0 hklt hu
    rw [show CHAR_MARK.length = 11 from by decide] at hklt
    have hk := charMark_drop_head k hklt hk0 hu
    rw [hk]
    exact hS3
  · by_contra hcon
    rw [Bool.not_eq_false] at hcon
    have h1 := occ_shift CHAR_MARK S ('_' :: (ts ++ (TAG_MARK ++ (G ++ (CHAR_MARK ++ name)))))
      i (by omega) hcon
    rw [show i - S.length = (i - S.length - 1) + 1 from by omega,
      List.drop_succ_cons] at h1
    have h2 := occ_shift CHAR_MARK ts (TAG_MARK ++ (G ++ (CHAR_MARK ++ name)))
      (i - S.length - 1) (by omega) h1
    have h3 := no_occ_charMark_tagRegion G name hG1 hG2 hG3 hG4
      (i - S.length - 1 - ts.length) (by omega)
    rw [h3] at h2
    exact absurd h2 (by simp)


theorem stripBin_append (X : Str) : stripBin (X ++ BIN_EXT) = X := by
  have h4 : BIN_EXT.length = 4 := by decide
  have hlen : (X ++ BIN_EXT).length = X.length + 4 := by
    simp only [List.length_append, h4]
  have harith : (X ++ BIN_EXT).length - BIN_EXT.length = X.length := by
    rw [hlen, h4]
    omega
  have hend : endsWithL (X ++ BIN_EXT) BIN_EXT = true := by
    simp only [endsWithL, decide_eq_true_eq, harith, List.drop_left]
  rw [stripBin, hend]
  simp only [if_true]
  rw [hlen, Nat.add_sub_cancel]
  exact List.take_left X BIN_EXT

theorem parseTimestampEnd_append (S ts : Str) (h14 : ts.length = 14)
    (hdig : ts.all Char.isDigit = true) :
    parseTimestampEnd (S ++ '_' :: ts) = some (S, ts) := by
  have hlen : (S ++ '_' :: ts).length = S.length + 15 := by
    simp only [List.length_append, List.length_cons, h14]
  have hd : (S ++ '_' :: ts).drop ((S ++ '_' :: ts).length - 15) = '_' :: ts := by
    rw [hlen, Nat.add_sub_cancel]
    exact List.drop_left S ('_' :: ts)
  have ht : (S ++ '_' :: ts).take ((S ++ '_' :: ts).length - 15) = S := by
    rw [hlen, Nat.add_sub_cancel]
    exact List.take_left S ('_' :: ts)
  rw [parseTimestampEnd, if_pos (by rw [hlen]; omega), hd]
  simp [hdig]
  rw [show S.length + (ts.length + 1) - 15 = S.length from by omega]
  exact List.take_left S ('_' :: ts)

theorem parse_shape_noTag (S ts name : Str)
    (h14 : ts.length = 14) (hdig : ts.all Char.isDigit = true) (hname : name ≠ [])
    (hnameLT : noLT name = true)
    (hS1 : containsL CHAR_MARK S = false)
    (hS2 : containsL TAG_MARK S = false)
    (hS3 : S.drop (S.length - 10) ≠ CHAR_MARK.take 10)
    (hS4 : S.drop (S.length - 4) ≠ TAG_MARK.take 4) :
    parseSaveFilename (((S ++ '_' :: ts) ++ (CHAR_MARK ++ name)) ++ BIN_EXT)
      = some ⟨S, ts, none, name⟩ := by
  have htsne : ts ≠ [] := by
    intro h
    rw [h] at h14
    simp at h14
  have hstrip := stripBin_append ((S ++ '_' :: ts) ++ (CHAR_MARK ++ name))
  have hsplit1 : splitFirstNE CHAR_MARK ((S ++ '_' :: ts) ++ (CHAR_MARK ++ name))
      = some (S ++ '_' :: ts, name) :=
    splitFirstNE_append CHAR_MARK charMark_ne_nil (S ++ '_' :: ts) name hname
      hnameLT (noEarly_charMark_noTag S ts name hdig htsne hS1 hS3)
  have hsplit2 : splitFirstNE TAG_MARK (S ++ '_' :: ts) = none :=
    splitFirstNE_eq_none TAG_MARK _ (noOcc_tagMark_noTag S ts hdig htsne hS2 hS4)
  have hts := parseTimestampEnd_append S ts h14 hdig
  rw [parseSaveFilename]
  rw [hstrip, hsplit1]
  simp only [hsplit2, hts, Option.map]

theorem parse_shape_tag (S ts G name : Str)
    (h14 : ts.length = 14) (hdig : ts.all Char.isDigit = true) (hname : name ≠ [])
    (hnameLT : noLT name = true)
    (hGne : G ≠ []) (hGLT : noLT G = true)
    (hS1 : containsL CHAR_MARK S = false)
    (hS2 : containsL TAG_MARK S = false)
    (hS3 : S.drop (S.length - 10) ≠ CHAR_MARK.take 10)
    (hS4 : S.drop (S.length - 4) ≠ TAG_MARK.take 4)
    (hG1 : containsL CHAR_MARK G = false)
    (hG2 : G.drop (G.length - 10) ≠ CHAR_MARK.take 10)
    (hG3 : isPre (("character_").data) G = false)
    (hG4 : G ≠ ("character").data) :
    parseSaveFilename (((S ++ '_' :: (ts ++ (TAG_MARK ++ G))) ++ (CHAR_MARK ++ name))
        ++ BIN_EXT)
      = some ⟨S, ts, some G, name⟩ := by
  have htsne : ts ≠ [] := by
    intro h
    rw [h] at h14
    simp at h14
  have hstrip := stripBin_append
    ((S ++ '_' :: (ts ++ (TAG_MARK ++ G))) ++ (CHAR_MARK ++ name))
  have hsplit1 : splitFirstNE CHAR_MARK
      ((S ++ '_' :: (ts ++ (TAG_MARK ++ G))) ++ (CHAR_MARK ++ name))
      = some (S ++ '_' :: (ts ++ (TAG_MARK ++ G)), name) :=
    splitFirstNE_append CHAR_MARK charMark_ne_nil _ name hname hnameLT
      (noEarly_charMark_tag S ts G name hdig htsne hS1 hS3 hG1 hG2 hG3 hG4)
  have hshape2 : S ++ '_' :: (ts ++ (TAG_MARK ++ G)) = (S ++ '_' :: ts) ++ (TAG_MARK ++ G) := by
    simp [List.append_assoc]
  have hsplit2 : splitFirstNE TAG_MARK (S ++ '_' :: (ts ++ (TAG_MARK ++ G)))
      = some (S ++ '_' :: ts, G) := by
    rw [hshape2]
    exact splitFirstNE_append TAG_MARK tagMark_ne_nil (S ++ '_' :: ts) G hGne
      hGLT (noEarly_tagMark_head S ts G hdig htsne hS2 hS4)
  have hts := parseTimestampEnd_append S ts h14 hdig
  rw [parseSaveFilename]
  rw [hstrip, hsplit1]
  simp only [hsplit2, hts, Option.map]


/-- C7 (amended): round-trip of the snapshot naming scheme.  For every
chatId and characterName whose normalized forms contain neither
`_character_` nor `_tag_`, every 14-digit timestamp, and every optional
non-empty tag — provided additionally that the character name is
non-empty and (being used unnormalized in the filename) contains no line
terminator, the normalized chat id does not end in `_character` or
`_tag`, and the normalized tag does not contain `_character_`, does not
end in `_character`, does not start with `character_` and is not exactly
`character` — `parseSaveFilename (generateSaveFilename ...)` returns the
normalized chatId, the given timestamp, the normalized tag (or none) and
the given characterName. -/
theorem claim_C7_filename_roundtrip (chatId ts name : Str) (tag : Option Str)
    (h14 : ts.length = 14) (hdig : ts.all Char.isDigit = true) (hname : name ≠ [])
    (hnameLT : noLT name = true)
    (hS1 : containsL CHAR_MARK (normalizeChatId chatId) = false)
    (hS2 : containsL TAG_MARK (normalizeChatId chatId) = false)
    (hN1 : containsL CHAR_MARK (normalizeCharacterName name) = false)
    (hN2 : containsL TAG_MARK (normalizeCharacterName name) = false)
    (hS3 : endsWithL (normalizeChatId chatId) (("_character").data) = false)
    (hS4 : endsWithL (normalizeChatId chatId) (("_tag").data) = false)
    (htag : ∀ t, tag = some t → t ≠ [] ∧
      containsL CHAR_MARK (normalizeString t) = false ∧
      endsWithL (normalizeString t) (("_character").data) = false ∧
      isPre (("character_").data) (normalizeString t) = false ∧
      normalizeString t ≠ ("character").data) :
    parseSaveFilename (generateSaveFilename chatId ts name tag)
      = some ⟨normalizeChatId chatId, ts, tag.map normalizeString, name⟩ := by
  have e1 : CHAR_MARK.take 10 = ("_character").data := by decide
  have e2 : TAG_MARK.take 4 = ("_tag").data := by decide
  have l1 : (("_character").data).length = 10 := by decide
  have l2 : (("_tag").data).length = 4 := by decide
  set S := normalizeChatId chatId with hSdef
  have hS3a : S.drop (S.length - 10) ≠ CHAR_MARK.take 10 := by
    have := (endsWithL_false_iff _ _).1 hS3
    rw [l1] at this
    rw [e1]
    exact this
  have hS4a : S.drop (S.length - 4) ≠ TAG_MARK.take 4 := by
    have := (endsWithL_false_iff _ _).1 hS4
    rw [l2] at this
    rw [e2]
    exact this
  cases tag with
  | none =>
    have hgen : generateSaveFilename chatId ts name none
        = ((S ++ '_' :: ts) ++ (CHAR_MARK ++ name)) ++ BIN_EXT := by
      rw [generateSaveFilename]
      simp [List.append_assoc]
    rw [hgen]
    simpa using parse_shape_noTag S ts name h14 hdig hname hnameLT hS1 hS2 hS3a hS4a
  | some t =>
    obtain ⟨htne, hG1, hG2e, hG3, hG4⟩ := htag t rfl
    set G := normalizeString t with hGdef
    have hGne : G ≠ [] := by
      rw [hGdef, normalizeString]
      simp [htne]
    have hGLT : noLT G = true := by
      rw [hGdef]
      exact noLT_normalizeString t
    have hG2 : G.drop (G.length - 10) ≠ CHAR_MARK.take 10 := by
      have := (endsWithL_false_iff _ _).1 hG2e
      rw [l1] at this
      rw [e1]
      exact this
    have hgen : generateSaveFilename chatId ts name (some t)
        = ((S ++ '_' :: (ts ++ (TAG_MARK ++ G))) ++ (CHAR_MARK ++ name)) ++ BIN_EXT := by
      rw [generateSaveFilename]
      simp only [if_pos htne]
      simp [List.append_assoc]
    rw [hgen]
    simpa using parse_shape_tag S ts G name h14 hdig hname hnameLT hGne hGLT
      hS1 hS2 hS3a hS4a hG1 hG2 hG3 hG4

/-- C7 counterexample: the chat id `x_tag` and character name `Alice`
satisfy every hypothesis of the claim as stated (their normalized forms
contain neither `_character_` nor `_tag_`), yet the round trip fails:
`parseSaveFilename` mis-splits at the spurious `_tag_` junction between
the chat id and the timestamp and returns `none`. -/
theorem claim_C7_counterexample :
    parseSaveFilename (generateSaveFilename (("x_tag").data)
        (("20240101120000").data) (("Alice").data) none) = none
    ∧ containsL CHAR_MARK (normalizeChatId (("x_tag").data)) = false
    ∧ containsL TAG_MARK (normalizeChatId (("x_tag").data)) = false
    ∧ containsL CHAR_MARK (normalizeCharacterName (("Alice").data)) = false
    ∧ containsL TAG_MARK (normalizeCharacterName (("Alice").data)) = false
    ∧ (("20240101120000").data).length = 14
    ∧ (("20240101120000").data).all Char.isDigit = true := by
  refine ⟨by decide, by decide, by decide, by decide, by decide, by decide, by decide⟩

/-- Witness for C7 (amended) at a concrete input. -/
theorem claim_C7_witness :
    parseSaveFilename (generateSaveFilename (("chat").data)
        (("20240101120000").data) (("Alice").data) (some (("v1").data)))
      = some ⟨("chat").data, ("20240101120000").data, some (("v1").data),
          ("Alice").data⟩ := by
  have h := claim_C7_filename_roundtrip (("chat").data) (("20240101120000").data)
    (("Alice").data) (some (("v1").data))
    (by decide) (by decide) (by decide) (by decide) (by decide) (by decide)
    (by decide) (by decide) (by decide) (by decide)
    (by
      intro t ht
      injection ht with ht
      rw [← ht]
      refine ⟨by decide, by decide, by decide, by decide, by decide⟩)
  rw [show normalizeChatId (("chat").data) = ("chat").data from by decide] at h
  rw [show (some (("v1").data)).map normalizeString = some (("v1").data) from by decide] at h
  exact h


/-! ### Timestamp ordering and stable descending sort
(src/utils/utils.js `sortByTimestamp`) -/

/-- Lexicographic order on character lists by code point; on the 14-digit
equal-length timestamps this coincides with JS `localeCompare`. -/
def strLe : Str → Str → Bool
  | [], _ => true
  | _ :: _, [] => false
  | a :: as, b :: bs =>
    if a.toNat = b.toNat then strLe as bs else decide (a.toNat < b.toNat)

theorem strLe_total : ∀ a b : Str, (strLe a b || strLe b a) = true := by
  intro a
  induction a with
  | nil => intro b; simp [strLe]
  | cons x as ih =>
    intro b
    cases b with
    | nil => simp [strLe]
    | cons y bs =>
      rw [strLe, strLe]
      by_cases hxy : x.toNat = y.toNat
      · rw [if_pos hxy, if_pos (by omega)]
        exact ih bs
      · rw [if_neg hxy, if_neg (by omega)]
        simp only [Bool.or_eq_true, decide_eq_true_eq]
        omega

theorem strLe_trans : ∀ a b c : Str,
    strLe a b = true → strLe b c = true → strLe a c = true := by
  intro a
  induction a with
  | nil => intro b c _ _; rfl
  | cons x as ih =>
    intro b c hab hbc
    cases b with
    | nil => rw [strLe] at hab; exact absurd hab (by simp)
    | cons y bs =>
      cases c with
      | nil => rw [strLe] at hbc; exact absurd hbc (by simp)
      | cons z cs =>
        rw [strLe] at hab hbc ⊢
        by_cases hxy : x.toNat = y.toNat
        · rw [if_pos hxy] at hab
          by_cases hyz : y.toNat = z.toNat
          · rw [if_pos hyz] at hbc
            rw [if_pos (by omega)]
            exact ih bs cs hab hbc
          · rw [if_neg hyz] at hbc
            rw [if_neg (by omega)]
            simp only [decide_eq_true_eq] at hbc ⊢
            omega
        · rw [if_neg hxy] at hab
          simp only [decide_eq_true_eq] at hab
          by_cases hyz : y.toNat = z.toNat
          · rw [if_neg (by omega)]
            simp only [decide_eq_true_eq]
            omega
          · rw [if_neg hyz] at hbc
            simp only [decide_eq_true_eq] at hbc
            rw [if_neg (by omega)]
            simp only [decide_eq_true_eq]
            omega

/-- Insert into a list sorted by `le`, keeping it sorted. -/
def insertIn {α : Type} (le : α → α → Bool) (x : α) : List α → List α
  | [] => [x]
  | y :: ys => if le x y then x :: y :: ys else y :: insertIn le x ys

/-- Insertion sort by `le`. -/
def sortIns {α : Type} (le : α → α → Bool) : List α → List α
  | [] => []
  | x :: xs => insertIn le x (sortIns le xs)

theorem insertIn_perm {α : Type} (le : α → α → Bool) (x : α) :
    ∀ l : List α, (insertIn le x l).Perm (x :: l) := by
  intro l
  induction l with
  | nil => exact List.Perm.refl _
  | cons y ys ih =>
    rw [insertIn]
    by_cases hxy : le x y = true
    · rw [if_pos hxy]
    · rw [if_neg hxy]
      exact (ih.cons y).trans (List.Perm.swap x y ys)

theorem sortIns_perm {α : Type} (le : α → α → Bool) :
    ∀ l : List α, (sortIns le l).Perm l := by
  intro l
  induction l with
  | nil => exact List.Perm.refl _
  | cons x xs ih =>
    rw [sortIns]
    exact (insertIn_perm le x (sortIns le xs)).trans (ih.cons x)

theorem insertIn_pairwise {α : Type} (le : α → α → Bool)
    (htot : ∀ a b, (le a b || le b a) = true)
    (htr : ∀ a b c, le a b = true → le b c = true → le a c = true)
    (x : α) : ∀ l : List α, List.Pairwise (fun a b => le a b = true) l →
      List.Pairwise (fun a b => le a b = true) (insertIn le x l) := by
  intro l
  induction l with
  | nil => intro _; simp [insertIn]
  | cons y ys ih =>
    intro h
    rw [List.pairwise_cons] at h
    obtain ⟨hy, hys⟩ := h
    rw [insertIn]
    by_cases hxy : le x y = true
    · rw [if_pos hxy, List.pairwise_cons]
      refine ⟨?_, List.pairwise_cons.2 ⟨hy, hys⟩⟩
      intro b hb
      rcases List.mem_cons.1 hb with rfl | hb
      · exact hxy
      · exact htr x y b hxy (hy b hb)
    · rw [if_neg hxy, List.pairwise_cons]
      constructor
      · intro b hb
        rcases List.mem_cons.1 ((insertIn_perm le x ys).mem_iff.1 hb) with rfl | hb
        · have := htot b y
          simp only [Bool.or_eq_true] at this
          rcases this with h1 | h1
          · exact absurd h1 hxy
          · exact h1
        · exact hy b hb
      · exact ih hys

theorem sortIns_pairwise {α : Type} (le : α → α → Bool)
    (htot : ∀ a b, (le a b || le b a) = true)
    (htr : ∀ a b c, le a b = true → le b c = true → le a c = true) :
    ∀ l : List α, List.Pairwise (fun a b => le a b = true) (sortIns le l) := by
  intro l
  induction l with
  | nil => simp [sortIns]
  | cons x xs ih =>
    rw [sortIns]
    exact insertIn_pairwise le htot htr x (sortIns le xs) ih

/-- src/utils/utils.js `sortByTimestamp` with `descending = true`: the JS
`Array.prototype.sort` with comparator `timestampB.localeCompare(timestampA)`
sorts into descending timestamp order; on the call sites modelled here every
item carries a parsed 14-digit timestamp, so the missing-timestamp guard
(`return 0`) never fires.  Only sortedness and permutation of the output
are relied upon by the properties below. -/
def sortByTimestampKeyed {α : Type} (key : α → Str) (items : List α) : List α :=
  sortIns (fun a b => strLe (key b) (key a)) items

theorem sortByTimestampKeyed_perm {α : Type} (key : α → Str) (l : List α) :
    (sortByTimestampKeyed key l).Perm l :=
  sortIns_perm _ l

theorem sortByTimestampKeyed_pairwise {α : Type} (key : α → Str) (l : List α) :
    List.Pairwise (fun a b => strLe (key b) (key a) = true)
      (sortByTimestampKeyed key l) :=
  sortIns_pairwise _
    (fun a b => strLe_total (key b) (key a))
    (fun a b c hab hbc => strLe_trans (key c) (key b) (key a) hbc hab) l


/-! ### File rotation (src/core/file-manager.js `rotateFiles`,
`rotateCharacterFiles`) -/

/-- One entry of `parseFilesList` (src/utils/utils.js): the filename
together with its `parseSaveFilename` result. -/
structure ParsedFile where
  name : Str
  parsed : Option ParsedFilename
deriving DecidableEq

/-- src/utils/utils.js `parseFilesList`. -/
def parseFilesList (files : List Str) : List ParsedFile :=
  files.map (fun n => ⟨n, parseSaveFilename n⟩)

/-- Timestamp key used by `sortByTimestamp` on parsed file entries
(`a.parsed?.timestamp`); entries reaching the sort are always parsed. -/
def fileTs (f : ParsedFile) : Str :=
  match f.parsed with
  | some p => p.timestamp
  | none => []

/-- The filter of src/core/file-manager.js `rotateCharacterFiles`: parsed,
same chat, same normalized character name, and no tag (auto-saves only). -/
def rotCharFilter (chatIdNorm nameNorm : Str) (f : ParsedFile) : Bool :=
  match f.parsed with
  | none => false
  | some p =>
    decide (p.chatId = chatIdNorm)
      && decide (normalizeCharacterName p.characterName = nameNorm)
      && p.tag.isNone

/-- src/core/file-manager.js `rotateFiles`, deletion decision: filter the
parsed file list, sort descending by timestamp, and when more than
`maxFiles` files remain, the files after the first `maxFiles` are deleted
(the JS code calls `deleteFile` on each).  A falsy `maxFiles` setting
(0 here) falls back to 10 (`extensionSettings.maxFiles || 10`). -/
def rotateFilesToDelete (maxFilesSetting : Nat) (filterFn : ParsedFile → Bool)
    (files : List Str) : List ParsedFile :=
  let maxFiles := if maxFilesSetting = 0 then 10 else maxFilesSetting
  let filteredFiles := (parseFilesList files).filter filterFn
  let sorted := sortByTimestampKeyed fileTs filteredFiles
  if maxFiles < sorted.length then sorted.drop maxFiles else []

/-- src/core/file-manager.js `rotateCharacterFiles`: rotation for one
character; empty (falsy) name returns without rotating. -/
def rotateCharacterFiles (maxFilesSetting : Nat) (chatIdNorm characterName : Str)
    (files : List Str) : List ParsedFile :=
  if characterName = [] then []
  else
    rotateFilesToDelete maxFilesSetting
      (rotCharFilter chatIdNorm (normalizeCharacterName characterName)) files

theorem rotateFilesToDelete_spec (N : Nat) (hN : 0 < N)
    (filterFn : ParsedFile → Bool) (files : List Str) :
    (∀ f ∈ rotateFilesToDelete N filterFn files, filterFn f = true)
    ∧ ∃ kept : List ParsedFile,
        kept.length = min N ((parseFilesList files).filter filterFn).length
        ∧ (kept ++ rotateFilesToDelete N filterFn files).Perm
            ((parseFilesList files).filter filterFn)
        ∧ ∀ d ∈ rotateFilesToDelete N filterFn files, ∀ k ∈ kept,
            strLe (fileTs d) (fileTs k) = true := by
  have hN0 : ¬ N = 0 := by omega
  have hunfold : rotateFilesToDelete N filterFn files =
      (if N < (sortByTimestampKeyed fileTs
          ((parseFilesList files).filter filterFn)).length
       then (sortByTimestampKeyed fileTs
          ((parseFilesList files).filter filterFn)).drop N
       else []) := by
    rw [rotateFilesToDelete]
    simp only [if_neg hN0]
  have hperm : (sortByTimestampKeyed fileTs
      ((parseFilesList files).filter filterFn)).Perm
      ((parseFilesList files).filter filterFn) :=
    sortByTimestampKeyed_perm fileTs _
  have hpair := sortByTimestampKeyed_pairwise fileTs
    ((parseFilesList files).filter filterFn)
  by_cases hc : N < (sortByTimestampKeyed fileTs
      ((parseFilesList files).filter filterFn)).length
  · rw [hunfold, if_pos hc]
    constructor
    · intro f hf
      have hmem : f ∈ sortByTimestampKeyed fileTs
          ((parseFilesList files).filter filterFn) := List.mem_of_mem_drop hf
      exact List.of_mem_filter (hperm.mem_iff.1 hmem)
    · refine ⟨(sortByTimestampKeyed fileTs
        ((parseFilesList files).filter filterFn)).take N, ?_, ?_, ?_⟩
      · rw [List.length_take, hperm.length_eq]
      · rw [List.take_append_drop]
        exact hperm
      · intro d hd k hk
        rw [← List.take_append_drop N (sortByTimestampKeyed fileTs
          ((parseFilesList files).filter filterFn))] at hpair
        rw [List.pairwise_append] at hpair
        exact hpair.2.2 k hk d hd
  · rw [hunfold, if_neg hc]
    refine ⟨by simp, sortByTimestampKeyed fileTs
      ((parseFilesList files).filter filterFn), ?_, by simpa using hperm, by simp⟩
    rw [hperm.length_eq]
    have := hperm.length_eq
    omega

/-- C6: rotation for a (conversation, entity) pair deletes exactly the
untagged matching snapshots beyond the `maxFiles` most recent ones: every
deleted file matches the pair and is untagged (so a tagged snapshot is
never deleted regardless of age or count), and the matching untagged files
split into a kept part of size `min maxFiles total` whose timestamps all
dominate every deleted file's timestamp. -/
theorem claim_C6_rotation_keeps_newest (N : Nat) (hN : 0 < N)
    (chatIdNorm characterName : Str) (hname : characterName ≠ [])
    (files : List Str) :
    (∀ f ∈ rotateCharacterFiles N chatIdNorm characterName files,
      rotCharFilter chatIdNorm (normalizeCharacterName characterName) f = true)
    ∧ (∀ f ∈ rotateCharacterFiles N chatIdNorm characterName files,
        ∀ p, f.parsed = some p → p.tag = none)
    ∧ ∃ kept : List ParsedFile,
        kept.length = min N (((parseFilesList files).filter
          (rotCharFilter chatIdNorm (normalizeCharacterName characterName))).length)
        ∧ (kept ++ rotateCharacterFiles N chatIdNorm characterName files).Perm
            ((parseFilesList files).filter
              (rotCharFilter chatIdNorm (normalizeCharacterName characterName)))
        ∧ ∀ d ∈ rotateCharacterFiles N chatIdNorm characterName files,
            ∀ k ∈ kept, strLe (fileTs d) (fileTs k) = true := by
  have hrw : rotateCharacterFiles N chatIdNorm characterName files
      = rotateFilesToDelete N
          (rotCharFilter chatIdNorm (normalizeCharacterName characterName)) files := by
    rw [rotateCharacterFiles, if_neg hname]
  obtain ⟨h1, h2⟩ := rotateFilesToDelete_spec N hN
    (rotCharFilter chatIdNorm (normalizeCharacterName characterName)) files
  rw [hrw]
  refine ⟨h1, ?_, h2⟩
  intro f hf p hp
  have := h1 f hf
  rw [rotCharFilter, hp] at this
  simp only [Bool.and_eq_true, decide_eq_true_eq, Option.isNone_iff_eq_none] at this
  exact this.2

/-- Witness for C6 at a concrete input: two untagged auto-saves and one
older tagged save for Alice in chat `c`, maxFiles = 1: only the older
untagged file is deleted. -/
theorem claim_C6_witness :
    rotateCharacterFiles 1 (("c").data) (("Alice").data)
        [("c_20240101120000_character_Alice.bin").data,
         ("c_20230101120000_tag_keep_character_Alice.bin").data,
         ("c_20220101120000_character_Alice.bin").data]
      = [⟨("c_20220101120000_character_Alice.bin").data,
          some ⟨("c").data, ("20220101120000").data, none, ("Alice").data⟩⟩]
    ∧ ((∀ f ∈ rotateCharacterFiles 1 (("c").data) (("Alice").data)
        [("c_20240101120000_character_Alice.bin").data,
         ("c_20230101120000_tag_keep_character_Alice.bin").data,
         ("c_20220101120000_character_Alice.bin").data],
          rotCharFilter (("c").data)
            (normalizeCharacterName (("Alice").data)) f = true)
      ∧ (∀ f ∈ rotateCharacterFiles 1 (("c").data) (("Alice").data)
          [("c_20240101120000_character_Alice.bin").data,
           ("c_20230101120000_tag_keep_character_Alice.bin").data,
           ("c_20220101120000_character_Alice.bin").data],
            ∀ p, f.parsed = some p → p.tag = none)
      ∧ ∃ kept : List ParsedFile,
          kept.length = min 1 (((parseFilesList
            [("c_20240101120000_character_Alice.bin").data,
             ("c_20230101120000_tag_keep_character_Alice.bin").data,
             ("c_20220101120000_character_Alice.bin").data]).filter
            (rotCharFilter (("c").data)
              (normalizeCharacterName (("Alice").data)))).length)
          ∧ (kept ++ rotateCharacterFiles 1 (("c").data) (("Alice").data)
              [("c_20240101120000_character_Alice.bin").data,
               ("c_20230101120000_tag_keep_character_Alice.bin").data,
               ("c_20220101120000_character_Alice.bin").data]).Perm
              ((parseFilesList
                [("c_20240101120000_character_Alice.bin").data,
                 ("c_20230101120000_tag_keep_character_Alice.bin").data,
                 ("c_20220101120000_character_Alice.bin").data]).filter
                (rotCharFilter (("c").data)
                  (normalizeCharacterName (("Alice").data))))
          ∧ ∀ d ∈ rotateCharacterFiles 1 (("c").data) (("Alice").data)
              [("c_20240101120000_character_Alice.bin").data,
               ("c_20230101120000_tag_keep_character_Alice.bin").data,
               ("c_20220101120000_character_Alice.bin").data],
              ∀ k ∈ kept, strLe (fileTs d) (fileTs k) = true) :=
  ⟨by decide,
   claim_C6_rotation_keeps_newest 1 (by decide) (("c").data) (("Alice").data)
     (by decide) _⟩


/-! ### Most recent snapshot lookup
(src/core/file-manager.js `getLastCacheForCharacter`) -/

/-- One entry of the `characterFiles` array built by
`getLastCacheForCharacter` (the `chatId` field is never read afterwards). -/
structure CharFile where
  filename : Str
  timestamp : Str
deriving DecidableEq

/-- One loop iteration of `getLastCacheForCharacter`: skip unparsed files
and other chats; match primarily by parsed character name, else fall back
to a filename-substring check with de-duplication by filename. -/
def addCharFile (normalized raw chatIdNorm : Str) (acc : List CharFile)
    (f : ParsedFile) : List CharFile :=
  match f.parsed with
  | none => acc
  | some p =>
    if p.chatId ≠ chatIdNorm then acc
    else if p.characterName ≠ [] ∧ normalizeCharacterName p.characterName = normalized
    then acc ++ [⟨f.name, p.timestamp⟩]
    else if containsL normalized f.name || containsL raw f.name then
      if acc.any (fun c => c.filename = f.name) then acc
      else acc ++ [⟨f.name, p.timestamp⟩]
    else acc

/-- src/core/file-manager.js `getLastCacheForCharacter` with
`currentChatOnly = true`: collect the entity's files in the current chat,
sort descending by timestamp and return the first filename; `none` for an
empty input list or when no file matched (the JS empty-check before the
sort and the head of the sorted non-empty list are both captured by the
match). -/
def getLastCacheForCharacter (characterName chatIdNorm : Str)
    (files : List Str) : Option Str :=
  if files = [] then none
  else
    match sortByTimestampKeyed CharFile.timestamp
      ((parseFilesList files).foldl
        (addCharFile (normalizeCharacterName characterName) characterName chatIdNorm)
        []) with
    | [] => none
    | f :: _ => some f.filename


theorem strLe_refl (a : Str) : strLe a a = true := by
  have := strLe_total a a
  simpa using this

theorem foldl_addCharFile_all (normalized raw chatIdNorm : Str) :
    ∀ (l : List ParsedFile) (acc : List CharFile),
    (∀ f ∈ l, ∃ p, f.parsed = some p ∧ p.chatId = chatIdNorm
      ∧ p.characterName ≠ [] ∧ normalizeCharacterName p.characterName = normalized) →
    l.foldl (addCharFile normalized raw chatIdNorm) acc
      = acc ++ l.map (fun f => CharFile.mk f.name (fileTs f)) := by
  intro l
  induction l with
  | nil => intro acc _; simp
  | cons f l' ih =>
    intro acc hall
    obtain ⟨p, hp, hchat, hne, hnorm⟩ := hall f (List.mem_cons_self f l')
    have hstep : addCharFile normalized raw chatIdNorm acc f
        = acc ++ [CharFile.mk f.name (fileTs f)] := by
      simp only [addCharFile, hp]
      rw [if_neg (fun hcon => hcon hchat)]
      rw [if_pos ⟨hne, hnorm⟩]
      rw [show fileTs f = p.timestamp from by rw [fileTs, hp]]
    rw [List.foldl_cons, hstep]
    rw [ih (acc ++ [CharFile.mk f.name (fileTs f)])
      (fun g hg => hall g (List.mem_cons_of_mem f hg))]
    simp

theorem foldl_addCharFile_none (normalized raw chatIdNorm : Str) :
    ∀ (l : List ParsedFile) (acc : List CharFile),
    (∀ f ∈ l, ∀ p, f.parsed = some p →
      p.chatId ≠ chatIdNorm ∨
      (¬(p.characterName ≠ [] ∧ normalizeCharacterName p.characterName = normalized)
        ∧ containsL normalized f.name = false ∧ containsL raw f.name = false)) →
    l.foldl (addCharFile normalized raw chatIdNorm) acc = acc := by
  intro l
  induction l with
  | nil => intro acc _; rfl
  | cons f l' ih =>
    intro acc hall
    have hstep : addCharFile normalized raw chatIdNorm acc f = acc := by
      cases hp : f.parsed with
      | none => simp only [addCharFile, hp]
      | some p =>
        simp only [addCharFile, hp]
        rcases hall f (List.mem_cons_self f l') p hp with hchat | ⟨hname, hc1, hc2⟩
        · rw [if_pos hchat]
        · by_cases hchat : p.chatId ≠ chatIdNorm
          · rw [if_pos hchat]
          · rw [if_neg hchat, if_neg hname, hc1, hc2]
            simp
    rw [List.foldl_cons, hstep]
    exact ih acc (fun g hg => hall g (List.mem_cons_of_mem f hg))

/-- C8: when every file in the list is a parseable snapshot of the given
entity in the current conversation, `getLastCacheForCharacter` returns a
filename from the list whose parsed 14-digit timestamp is lexicographically
greatest among all the files; and when no file matches the entity (neither
by parsed character name nor by the filename-substring fallback),
it returns `none`. -/
theorem claim_C8_last_cache_lex_greatest (characterName chatIdNorm : Str)
    (files : List Str) :
    ((files ≠ []) →
      (∀ n ∈ files, ∃ p, parseSaveFilename n = some p ∧ p.chatId = chatIdNorm
        ∧ p.characterName ≠ []
        ∧ normalizeCharacterName p.characterName
            = normalizeCharacterName characterName) →
      ∃ fname, getLastCacheForCharacter characterName chatIdNorm files = some fname
        ∧ fname ∈ files
        ∧ ∀ q, parseSaveFilename fname = some q →
            ∀ n ∈ files, ∀ p, parseSaveFilename n = some p →
              strLe p.timestamp q.timestamp = true)
    ∧ ((∀ n ∈ files, ∀ p, parseSaveFilename n = some p →
          p.chatId ≠ chatIdNorm ∨
          (¬(p.characterName ≠ [] ∧ normalizeCharacterName p.characterName
              = normalizeCharacterName characterName)
            ∧ containsL (normalizeCharacterName characterName) n = false
            ∧ containsL characterName n = false)) →
        getLastCacheForCharacter characterName chatIdNorm files = none) := by
  constructor
  · intro hne hall
    have hall' : ∀ f ∈ parseFilesList files, ∃ p, f.parsed = some p
        ∧ p.chatId = chatIdNorm ∧ p.characterName ≠ []
        ∧ normalizeCharacterName p.characterName
            = normalizeCharacterName characterName := by
      intro f hf
      rw [parseFilesList] at hf
      obtain ⟨n, hn, rfl⟩ := List.mem_map.1 hf
      exact hall n hn
    have hfold := foldl_addCharFile_all (normalizeCharacterName characterName)
      characterName chatIdNorm (parseFilesList files) [] hall'
    rw [List.nil_append] at hfold
    have hperm := sortByTimestampKeyed_perm CharFile.timestamp
      ((parseFilesList files).foldl
        (addCharFile (normalizeCharacterName characterName) characterName chatIdNorm) [])
    have hpair := sortByTimestampKeyed_pairwise CharFile.timestamp
      ((parseFilesList files).foldl
        (addCharFile (normalizeCharacterName characterName) characterName chatIdNorm) [])
    rw [getLastCacheForCharacter, if_neg hne]
    cases hs : sortByTimestampKeyed CharFile.timestamp
        ((parseFilesList files).foldl
          (addCharFile (normalizeCharacterName characterName) characterName chatIdNorm)
          []) with
    | nil =>
      exfalso
      rw [hs] at hperm
      have := hperm.length_eq
      rw [hfold] at this
      simp only [List.length_nil, List.length_map, parseFilesList] at this
      rcases files with _ | ⟨n, rest⟩
      · exact hne rfl
      · simp at this
    | cons f0 rest =>
      refine ⟨f0.filename, rfl, ?_, ?_⟩
      · have hmem : f0 ∈ (parseFilesList files).map
            (fun f => CharFile.mk f.name (fileTs f)) := by
          rw [← hfold]
          exact hperm.mem_iff.1 (by rw [hs]; exact List.mem_cons_self f0 rest)
        obtain ⟨g, hg, hgf⟩ := List.mem_map.1 hmem
        rw [parseFilesList] at hg
        obtain ⟨n, hn, rfl⟩ := List.mem_map.1 hg
        rw [← hgf]
        exact hn
      · intro q hq n hn p hp
        have hmemn : CharFile.mk n p.timestamp ∈ sortByTimestampKeyed
            CharFile.timestamp ((parseFilesList files).foldl
              (addCharFile (normalizeCharacterName characterName) characterName
                chatIdNorm) []) := by
          apply hperm.mem_iff.2
          rw [hfold]
          apply List.mem_map.2
          refine ⟨⟨n, parseSaveFilename n⟩, ?_, ?_⟩
          · rw [parseFilesList]
            exact List.mem_map.2 ⟨n, hn, rfl⟩
          · rw [fileTs]
            simp only [hp]
        have hq0 : ∀ x ∈ rest, strLe x.timestamp f0.timestamp = true := by
          rw [hs] at hpair
          rw [List.pairwise_cons] at hpair
          exact hpair.1
        have hts : strLe p.timestamp f0.timestamp = true := by
          rw [hs] at hmemn
          rcases List.mem_cons.1 hmemn with heq | hmem'
          · rw [show p.timestamp = (CharFile.mk n p.timestamp).timestamp from rfl,
              heq]
            exact strLe_refl _
          · exact hq0 _ hmem'
        -- q.timestamp = f0.timestamp
        have hmemf0 : f0 ∈ (parseFilesList files).map
            (fun f => CharFile.mk f.name (fileTs f)) := by
          rw [← hfold]
          exact hperm.mem_iff.1 (by rw [hs]; exact List.mem_cons_self f0 rest)
        obtain ⟨g, hg, hgf⟩ := List.mem_map.1 hmemf0
        rw [parseFilesList] at hg
        obtain ⟨m, hm, rfl⟩ := List.mem_map.1 hg
        have hfname : f0.filename = m := by rw [← hgf]
        have hts0 : f0.timestamp = fileTs ⟨m, parseSaveFilename m⟩ := by rw [← hgf]
        rw [hfname] at hq
        rw [hq] at hts0
        rw [fileTs] at hts0
        simp only at hts0
        rw [← hts0]
        exact hts
  · intro hnone
    rw [getLastCacheForCharacter]
    by_cases hfe : files = []
    · rw [if_pos hfe]
    · rw [if_neg hfe]
      have hall' : ∀ f ∈ parseFilesList files, ∀ p, f.parsed = some p →
          p.chatId ≠ chatIdNorm ∨
          (¬(p.characterName ≠ [] ∧ normalizeCharacterName p.characterName
              = normalizeCharacterName characterName)
            ∧ containsL (normalizeCharacterName characterName) f.name = false
            ∧ containsL characterName f.name = false) := by
        intro f hf
        rw [parseFilesList] at hf
        obtain ⟨n, hn, rfl⟩ := List.mem_map.1 hf
        exact hnone n hn
      have hfold := foldl_addCharFile_none (normalizeCharacterName characterName)
        characterName chatIdNorm (parseFilesList files) [] hall'
      rw [hfold]
      rfl

/-- Witness for C8 at a concrete input: among two of Alice's snapshots in
chat `c` the one with the greater timestamp is returned. -/
theorem claim_C8_witness :
    ∃ fname, getLastCacheForCharacter (("Alice").data) (("c").data)
        [("c_20220101120000_character_Alice.bin").data,
         ("c_20240101120000_character_Alice.bin").data] = some fname
      ∧ fname ∈ [("c_20220101120000_character_Alice.bin").data,
         ("c_20240101120000_character_Alice.bin").data]
      ∧ ∀ q, parseSaveFilename fname = some q →
          ∀ n ∈ [("c_20220101120000_character_Alice.bin").data,
             ("c_20240101120000_character_Alice.bin").data],
            ∀ p, parseSaveFilename n = some p →
              strLe p.timestamp q.timestamp = true :=
  (claim_C8_last_cache_lex_greatest (("Alice").data) (("c").data)
      [("c_20220101120000_character_Alice.bin").data,
       ("c_20240101120000_character_Alice.bin").data]).1
    (by decide)
    (by
      intro n hn
      rcases List.mem_cons.1 hn with rfl | hn
      · exact ⟨⟨("c").data, ("20220101120000").data, none, ("Alice").data⟩,
          by decide, by decide, by decide, by decide⟩
      · rcases List.mem_cons.1 hn with rfl | hn
        · exact ⟨⟨("c").data, ("20240101120000").data, none, ("Alice").data⟩,
            by decide, by decide, by decide, by decide⟩
        · exact absurd hn (by simp))


/-! ### Slot registry (slot-manager.js is not under src/: the registry and
its mutators are modelled from the spec, sections 3, 4.1 and 4.2; the
`generationType` field and the shape of the state follow their uses in the
src files) -/

/-- Modelled from the spec: one entry of the slot registry of
slot-manager.js (not under src/), per section 3 of the spec: resident
(normalized character name, `none` = free), usage counter, cache-loaded
flag, and the informational last generation kind. -/
structure Slot where
  characterName : Option Str
  usage : Nat
  cacheLoaded : Bool
  generationType : Option Str
deriving DecidableEq

/-- Replace the slot at an index, leaving the list unchanged when the
index is out of bounds. -/
def modifySlot (f : Slot → Slot) : Nat → List Slot → List Slot
  | _, [] => []
  | 0, s :: rest => f s :: rest
  | Nat.succ n, s :: rest => s :: modifySlot f n rest

/-- Modelled from the spec: `resetSlotUsage` of slot-manager.js (not under
src/), section 4.1 `resetUsage(index)`. -/
def resetSlotUsage (i : Nat) (slots : List Slot) : List Slot :=
  modifySlot (fun s => { s with usage := 0 }) i slots

/-- Modelled from the spec: `setSlotCacheLoaded` of slot-manager.js (not
under src/), section 4.1 `setCacheLoaded(index, bool)`. -/
def setSlotCacheLoaded (i : Nat) (b : Bool) (slots : List Slot) : List Slot :=
  modifySlot (fun s => { s with cacheLoaded := b }) i slots

/-- Set the `generationType` field (part_006 line
`slotsState[currentSlot].generationType = type`). -/
def setSlotGenerationType (i : Nat) (t : Str) (slots : List Slot) : List Slot :=
  modifySlot (fun s => { s with generationType := some t }) i slots

/-- Modelled from the spec: `findCharacterSlotIndex` of slot-manager.js
(not under src/), section 4.1 `findSlotOf(entityId)`: linear lookup by
resident equality. -/
def findCharacterSlotIndex (name : Str) (slots : List Slot) : Option Nat :=
  slots.findIdx? (fun s => s.characterName = some name)

/-- The usage of the slot at an index (0 when out of bounds). -/
def usageAt (slots : List Slot) (i : Nat) : Nat :=
  ((slots[i]?).map Slot.usage).getD 0

/-- The cache-loaded flag of the slot at an index; `false` when out of
bounds — exactly the interceptor's JS check `!slot?.cacheLoaded`. -/
def cacheLoadedAt (slots : List Slot) (i : Nat) : Bool :=
  ((slots[i]?).map Slot.cacheLoaded).getD false

theorem modifySlot_length (f : Slot → Slot) :
    ∀ (i : Nat) (slots : List Slot), (modifySlot f i slots).length = slots.length := by
  intro i
  induction i with
  | zero =>
    intro slots
    cases slots with
    | nil => rfl
    | cons s rest => rfl
  | succ n ih =>
    intro slots
    cases slots with
    | nil => rfl
    | cons s rest => simp [modifySlot, ih rest]

theorem modifySlot_get_same (f : Slot → Slot) :
    ∀ (i : Nat) (slots : List Slot),
      (modifySlot f i slots)[i]? = (slots[i]?).map f := by
  intro i
  induction i with
  | zero =>
    intro slots
    cases slots with
    | nil => rfl
    | cons s rest => simp [modifySlot]
  | succ n ih =>
    intro slots
    cases slots with
    | nil => rfl
    | cons s rest =>
      rw [modifySlot]
      rw [List.getElem?_cons_succ, List.getElem?_cons_succ]
      exact ih rest

/-! ### Cache operations (src/unnamed/part_005) -/

/-- Events emitted by the cache operations towards the backend and the
persistence layer. -/
inductive CacheEvent
  | backendSave (slot : Nat) (filename : Str)
  | backendLoad (slot : Nat) (filename : Str)
  | rotate (name : Str)
  | usageReset (slot : Nat)
deriving DecidableEq

/-- Collaborator outcomes for one `saveCharacterCache` call:
`apiOk` — the backend `saveSlotCache` HTTP call resolves;
`validateOk` — `validateCacheFile` accepts the written file;
`chatIdNorm`/`timestamp` — results of `getNormalizedChatId` and
`formatTimestamp`. -/
structure SaveEnv where
  apiOk : Bool
  validateOk : Bool
  chatIdNorm : Str
  timestamp : Str

/-- src/unnamed/part_005 `saveSlotCache`: the backend save resolves and the
saved file passes the size validation. -/
def saveSlotCache (env : SaveEnv) : Bool := env.apiOk && env.validateOk

/-- src/unnamed/part_005 `loadSlotCache`: on backend success reset the
slot's usage to 0 and mark the cache loaded; on failure return false and
leave the slot untouched. -/
def loadSlotCache (apiOk : Bool) (slotId : Nat) (filename : Str)
    (slots : List Slot) : Bool × List Slot × List CacheEvent :=
  match apiOk with
  | true =>
    (true, setSlotCacheLoaded slotId true (resetSlotUsage slotId slots),
      [CacheEvent.backendLoad slotId filename, CacheEvent.usageReset slotId])
  | false =>
    (false, slots, [CacheEvent.backendLoad slotId filename])

/-- src/unnamed/part_005 `saveCharacterCache`: validate the arguments,
save via `saveSlotCache`, and only on success rotate the character's
files and reset the slot usage. -/
def saveCharacterCache (env : SaveEnv) (characterName : Option Str)
    (slotIndex : Option Nat) (slots : List Slot) :
    Bool × List Slot × List CacheEvent :=
  match characterName with
  | none => (false, slots, [])
  | some name =>
    if name = [] then (false, slots, [])
    else
      match slotIndex with
      | none => (false, slots, [])
      | some i =>
        match saveSlotCache env with
        | true =>
          (true, resetSlotUsage i slots,
            [CacheEvent.backendSave i
                (generateSaveFilename env.chatIdNorm env.timestamp name none),
             CacheEvent.rotate name, CacheEvent.usageReset i])
        | false =>
          (false, slots,
            [CacheEvent.backendSave i
                (generateSaveFilename env.chatIdNorm env.timestamp name none)])

/-- C5: the slot usage counter is reset to zero exactly by the two success
paths: a successful restore (`loadSlotCache` resets usage and sets
`cacheLoaded`) and a successful save (`saveCharacterCache` resets usage
only after `saveSlotCache` reports success); a failed restore or failed
save leaves the slots unchanged, and the reset event occurs iff the
operation succeeded. -/
theorem claim_C5_usage_reset_on_success (env : SaveEnv) (apiOk : Bool)
    (i : Nat) (fn name : Str) (slots : List Slot)
    (hi : i < slots.length) (hname : name ≠ []) :
    ((loadSlotCache apiOk i fn slots).1 = apiOk
      ∧ (apiOk = true → usageAt (loadSlotCache apiOk i fn slots).2.1 i = 0
          ∧ cacheLoadedAt (loadSlotCache apiOk i fn slots).2.1 i = true)
      ∧ (apiOk = false → (loadSlotCache apiOk i fn slots).2.1 = slots)
      ∧ (CacheEvent.usageReset i ∈ (loadSlotCache apiOk i fn slots).2.2
          ↔ apiOk = true))
    ∧ ((saveCharacterCache env (some name) (some i) slots).1
        = (env.apiOk && env.validateOk)
      ∧ ((env.apiOk && env.validateOk) = true →
          usageAt (saveCharacterCache env (some name) (some i) slots).2.1 i = 0)
      ∧ ((env.apiOk && env.validateOk) = false →
          (saveCharacterCache env (some name) (some i) slots).2.1 = slots)
      ∧ (CacheEvent.usageReset i
          ∈ (saveCharacterCache env (some name) (some i) slots).2.2
          ↔ (env.apiOk && env.validateOk) = true)) := by
  have hsl : slots[i]? = some slots[i] := List.getElem?_eq_getElem hi
  constructor
  · cases apiOk with
    | false =>
      refine ⟨rfl, by intro h; exact absurd h (by simp), fun _ => rfl, ?_⟩
      simp [loadSlotCache]
    | true =>
      refine ⟨rfl, ?_, by intro h; exact absurd h (by simp), ?_⟩
      · intro _
        constructor
        · rw [loadSlotCache]
          rw [usageAt, setSlotCacheLoaded, resetSlotUsage, modifySlot_get_same,
            modifySlot_get_same, hsl]
          rfl
        · rw [loadSlotCache]
          rw [cacheLoadedAt, setSlotCacheLoaded, resetSlotUsage,
            modifySlot_get_same, modifySlot_get_same, hsl]
          rfl
      · simp [loadSlotCache]
  · rw [saveCharacterCache]
    simp only [if_neg hname]
    rw [show saveSlotCache env = (env.apiOk && env.validateOk) from rfl]
    cases hres : env.apiOk && env.validateOk with
    | false =>
      refine ⟨rfl, by intro h; exact absurd h (by simp), fun _ => rfl, ?_⟩
      simp
    | true =>
      refine ⟨rfl, ?_, by intro h; exact absurd h (by simp), ?_⟩
      · intro _
        rw [show ((true, resetSlotUsage i slots,
            [CacheEvent.backendSave i
                (generateSaveFilename env.chatIdNorm env.timestamp name none),
             CacheEvent.rotate name, CacheEvent.usageReset i]) :
            Bool × List Slot × List CacheEvent).2.1
          = resetSlotUsage i slots from rfl]
        rw [usageAt, resetSlotUsage, modifySlot_get_same, hsl]
        rfl
      · simp

/-- Witness for C5 at a concrete slot list. -/
theorem claim_C5_witness :
    ((loadSlotCache true 0 (("f").data)
        [Slot.mk (some (("a").data)) 3 false none]).1 = true
      ∧ (true = true → usageAt (loadSlotCache true 0 (("f").data)
          [Slot.mk (some (("a").data)) 3 false none]).2.1 0 = 0
          ∧ cacheLoadedAt (loadSlotCache true 0 (("f").data)
            [Slot.mk (some (("a").data)) 3 false none]).2.1 0 = true)
      ∧ (true = false → (loadSlotCache true 0 (("f").data)
          [Slot.mk (some (("a").data)) 3 false none]).2.1
          = [Slot.mk (some (("a").data)) 3 false none])
      ∧ (CacheEvent.usageReset 0 ∈ (loadSlotCache true 0 (("f").data)
          [Slot.mk (some (("a").data)) 3 false none]).2.2
          ↔ true = true))
    ∧ ((saveCharacterCache (SaveEnv.mk false true (("c").data)
          (("20240101120000").data)) (some (("a").data)) (some 0)
          [Slot.mk (some (("a").data)) 3 false none]).1
        = (false && true)
      ∧ ((false && true) = true →
          usageAt (saveCharacterCache (SaveEnv.mk false true (("c").data)
            (("20240101120000").data)) (some (("a").data)) (some 0)
            [Slot.mk (some (("a").data)) 3 false none]).2.1 0 = 0)
      ∧ ((false && true) = false →
          (saveCharacterCache (SaveEnv.mk false true (("c").data)
            (("20240101120000").data)) (some (("a").data)) (some 0)
            [Slot.mk (some (("a").data)) 3 false none]).2.1
          = [Slot.mk (some (("a").data)) 3 false none])
      ∧ (CacheEvent.usageReset 0
          ∈ (saveCharacterCache (SaveEnv.mk false true (("c").data)
            (("20240101120000").data)) (some (("a").data)) (some 0)
            [Slot.mk (some (("a").data)) 3 false none]).2.2
          ↔ (false && true) = true)) :=
  claim_C5_usage_reset_on_success
    (SaveEnv.mk false true (("c").data) (("20240101120000").data)) true 0
    (("f").data) (("a").data) [Slot.mk (some (("a").data)) 3 false none]
    (by decide) (by decide)

/-- C10: `saveCharacterCache` with a missing character name, or with a
missing slot index, returns false with no backend call, no rotation, no
usage reset and the slot state unchanged. -/
theorem claim_C10_save_invalid_args_no_effect (env : SaveEnv)
    (slotIndex : Option Nat) (name : Option Str) (slots : List Slot) :
    saveCharacterCache env none slotIndex slots = (false, slots, [])
    ∧ saveCharacterCache env name none slots = (false, slots, []) := by
  constructor
  · rfl
  · cases name with
    | none => rfl
    | some n =>
      rw [saveCharacterCache]
      by_cases hn : n = []
      · rw [if_pos hn]
      · rw [if_neg hn]


/-! ### Generation interceptor (src/unnamed/part_006) -/

/-- Modelled from the spec: `MIN_USAGE_FOR_SAVE` of settings.js (not under
src/): the save-before-evict usage threshold (the comment in part_005
`saveAllSlotsCache` states the value 2). -/
def MIN_USAGE_FOR_SAVE : Nat := 2

/-- Modelled from the spec: victim selection of `acquireSlot`
(slot-manager.js, not under src/), section 4.2 step 3: the slot with the
lowest usage, ties broken by lowest index. -/
def victimIndex (slots : List Slot) : Nat :=
  match (slots.map Slot.usage).min? with
  | some m => slots.findIdx (fun s => s.usage = m)
  | none => 0

/-- Result of `acquireSlot`: the bound index, the updated registry, and
the save-before-evict request (victim resident and index) if one was
issued. -/
structure AcquireResult where
  slotIndex : Option Nat
  slots : List Slot
  evictionSave : Option (Str × Nat)
deriving DecidableEq

/-- Modelled from the spec: `acquireSlot` of slot-manager.js (not under
src/), section 4.2: return the entity's existing slot unchanged; else bind
a free slot (`cacheLoaded = false`, `usage = 0`); else evict the victim,
persisting it first when its usage reaches the threshold; fail only on an
empty pool. -/
def acquireSlot (entity : Str) (minUsageForSave : Nat) (slots : List Slot) :
    AcquireResult :=
  match findCharacterSlotIndex entity slots with
  | some i => ⟨some i, slots, none⟩
  | none =>
    match slots.findIdx? (fun s => s.characterName = none) with
    | some i =>
      ⟨some i, modifySlot (fun s =>
        { s with characterName := some entity, cacheLoaded := false, usage := 0 })
        i slots, none⟩
    | none =>
      match slots with
      | [] => ⟨none, [], none⟩
      | _ :: _ =>
        let vi := victimIndex slots
        let save : Option (Str × Nat) :=
          match slots[vi]? with
          | some v =>
            if minUsageForSave ≤ v.usage then v.characterName.map (fun n => (n, vi))
            else none
          | none => none
        ⟨some vi, modifySlot (fun s =>
          { s with characterName := some entity, cacheLoaded := false, usage := 0 })
          vi slots, save⟩

/-- Restore-related calls the interceptor makes. -/
inductive GenEvent
  | restoreLookup (name : Str)
  | restoreCall (slot : Nat) (filename : Str)
deriving DecidableEq

/-- The module state touched by the interceptor: the slot registry, the
module-level `currentSlot`, and the preload-mode variables. -/
structure InterceptorState where
  slots : List Slot
  currentSlot : Option Nat
  isPreloading : Bool
  currentPreloadCharacter : Option Str
deriving DecidableEq

/-- Truthiness of the pinned preload character (non-null, non-empty). -/
def preloadNameValid : Option Str → Bool
  | some n => !n.isEmpty
  | none => false

/-- part_006: the requesting entity is the pinned preload character for
quiet generations during preload (when non-empty), else the context's
active character. -/
def resolveEntityName (genType : Str) (isPreloading : Bool)
    (currentPreloadCharacter : Option Str) (ctxName : Option Str) : Option Str :=
  if genType = ("quiet").data ∧ isPreloading = true
      ∧ preloadNameValid currentPreloadCharacter = true
  then currentPreloadCharacter
  else ctxName

/-- src/unnamed/part_006 `KVCacheManagerInterceptor`: skip impersonate and
non-preload quiet generations; resolve the entity, acquire a slot, restore
the most recent snapshot only when the bound slot's cache is not loaded,
and record the generation type on the slot.  Oracles: `ctxName` (context
character), `lastCache` (`getLastCacheForCharacter` result), `loadOk`
(backend restore outcome). -/
def KVCacheManagerInterceptor (genType : Str) (ctxName : Option Str)
    (lastCache : Option Str) (loadOk : Bool) (st : InterceptorState) :
    InterceptorState × List GenEvent :=
  if genType = ("impersonate").data then (st, [])
  else if genType = ("quiet").data ∧ st.isPreloading = false then (st, [])
  else
    match resolveEntityName genType st.isPreloading st.currentPreloadCharacter
        ctxName with
    | none => (st, [])
    | some name =>
      if name = [] then (st, [])
      else
        match acquireSlot name MIN_USAGE_FOR_SAVE st.slots with
        | ⟨none, newSlots, _⟩ =>
          ({ st with
              slots := newSlots
              currentSlot := none }, [])
        | ⟨some i, newSlots, _⟩ =>
          if cacheLoadedAt newSlots i = false then
            match lastCache with
            | some fname =>
              ({ st with
                  slots := setSlotGenerationType i genType
                    (loadSlotCache loadOk i fname newSlots).2.1
                  currentSlot := some i },
                [GenEvent.restoreLookup name, GenEvent.restoreCall i fname])
            | none =>
              ({ st with
                  slots := setSlotGenerationType i genType newSlots
                  currentSlot := some i },
                [GenEvent.restoreLookup name])
          else
            ({ st with
                slots := setSlotGenerationType i genType newSlots
                currentSlot := some i }, [])

/-- C3: when the slot already bound to the requesting entity has
`cacheLoaded = true`, the interceptor performs no restore lookup and no
restore call: it emits no restore events and only records the generation
type on the entity's existing slot. -/
theorem claim_C3_no_restore_when_cache_loaded
    (genType : Str) (ctxName lastCache : Option Str) (loadOk : Bool)
    (st : InterceptorState) (name : Str) (i : Nat)
    (h0a : genType ≠ ("impersonate").data)
    (h0b : ¬(genType = ("quiet").data ∧ st.isPreloading = false))
    (h1 : resolveEntityName genType st.isPreloading st.currentPreloadCharacter
        ctxName = some name)
    (h2 : name ≠ [])
    (h3 : findCharacterSlotIndex name st.slots = some i)
    (h4 : cacheLoadedAt st.slots i = true) :
    (KVCacheManagerInterceptor genType ctxName lastCache loadOk st).2 = []
    ∧ (KVCacheManagerInterceptor genType ctxName lastCache loadOk st).1.slots
        = setSlotGenerationType i genType st.slots
    ∧ (KVCacheManagerInterceptor genType ctxName lastCache loadOk st).1.currentSlot
        = some i := by
  have hacq : acquireSlot name MIN_USAGE_FOR_SAVE st.slots
      = ⟨some i, st.slots, none⟩ := by
    rw [acquireSlot.eq_def, h3]
  have hrun : KVCacheManagerInterceptor genType ctxName lastCache loadOk st
      = ({ st with
            slots := setSlotGenerationType i genType st.slots
            currentSlot := some i }, []) := by
    rw [KVCacheManagerInterceptor, if_neg h0a, if_neg h0b, h1]
    simp only [if_neg h2]
    split
    · rename_i heq
      rw [hacq] at heq
      exact absurd (congrArg AcquireResult.slotIndex heq) (by simp)
    · rename_i j newSlots es heq
      rw [hacq] at heq
      have hj : some i = some j := congrArg AcquireResult.slotIndex heq
      have hns : st.slots = newSlots := congrArg AcquireResult.slots heq
      injection hj with hj
      rw [← hj, ← hns]
      rw [if_neg (by rw [h4]; simp)]
  rw [hrun]
  exact ⟨rfl, rfl, rfl⟩

/-- Witness for C3 at a concrete state: entity `a` already owns slot 0
with `cacheLoaded = true`; a normal generation performs no restore. -/
theorem claim_C3_witness :
    (KVCacheManagerInterceptor (("normal").data) (some (("a").data))
      (some (("x.bin").data)) true
      (InterceptorState.mk [Slot.mk (some (("a").data)) 1 true none] none false none)).2
      = []
    ∧ (KVCacheManagerInterceptor (("normal").data) (some (("a").data))
        (some (("x.bin").data)) true
        (InterceptorState.mk [Slot.mk (some (("a").data)) 1 true none] none false
          none)).1.slots
      = setSlotGenerationType 0 (("normal").data)
          [Slot.mk (some (("a").data)) 1 true none]
    ∧ (KVCacheManagerInterceptor (("normal").data) (some (("a").data))
        (some (("x.bin").data)) true
        (InterceptorState.mk [Slot.mk (some (("a").data)) 1 true none] none false
          none)).1.currentSlot
      = some 0 :=
  claim_C3_no_restore_when_cache_loaded (("normal").data) (some (("a").data))
    (some (("x.bin").data)) true
    (InterceptorState.mk [Slot.mk (some (("a").data)) 1 true none] none false none)
    (("a").data) 0 (by decide) (by decide) (by decide) (by decide) (by decide)
    (by decide)

/-- C9: an impersonate generation, and a quiet generation outside preload
mode, return immediately: no slot acquisition, no restore events, and the
whole interceptor state (registry, current slot, preload variables) is
unchanged. -/
theorem claim_C9_interceptor_skips (genType : Str) (ctxName lastCache : Option Str)
    (loadOk : Bool) (st : InterceptorState)
    (h : genType = ("impersonate").data
      ∨ (genType = ("quiet").data ∧ st.isPreloading = false)) :
    KVCacheManagerInterceptor genType ctxName lastCache loadOk st = (st, []) := by
  rcases h with h | h
  · rw [KVCacheManagerInterceptor, if_pos h]
  · by_cases himp : genType = ("impersonate").data
    · rw [KVCacheManagerInterceptor, if_pos himp]
    · rw [KVCacheManagerInterceptor, if_neg himp, if_pos h]

/-- Witness for C9 at concrete states: an impersonate generation and a
non-preload quiet generation both leave the state untouched. -/
theorem claim_C9_witness :
    KVCacheManagerInterceptor (("impersonate").data) (some (("a").data))
      (some (("x.bin").data)) true
      (InterceptorState.mk [Slot.mk (some (("a").data)) 1 false none] none false none)
      = (InterceptorState.mk [Slot.mk (some (("a").data)) 1 false none] none false
          none, [])
    ∧ KVCacheManagerInterceptor (("quiet").data) (some (("a").data))
        (some (("x.bin").data)) true
        (InterceptorState.mk [Slot.mk (some (("a").data)) 1 false none] none false
          none)
      = (InterceptorState.mk [Slot.mk (some (("a").data)) 1 false none] none false
          none, []) :=
  ⟨claim_C9_interceptor_skips (("impersonate").data) (some (("a").data))
      (some (("x.bin").data)) true
      (InterceptorState.mk [Slot.mk (some (("a").data)) 1 false none] none false none)
      (Or.inl rfl),
   claim_C9_interceptor_skips (("quiet").data) (some (("a").data))
      (some (("x.bin").data)) true
      (InterceptorState.mk [Slot.mk (some (("a").data)) 1 false none] none false none)
      (Or.inr ⟨rfl, rfl⟩)⟩


/-! ### Auto-save message counters (src/unnamed/part_004) -/

/-- Outcome of the `saveCharacterCache` call made by the auto-save
trigger: success, reported failure (returns false), or a thrown error
(caught by the `try`/`catch`). -/
inductive SaveOutcome
  | ok
  | failed
  | thrown
deriving DecidableEq

/-- Collaborator outcomes for one `incrementMessageCounter` call:
the settings (`enabled`, `saveInterval`), the normalized chat id, the
`findCharacterSlotIndex` result and the save outcome. -/
structure AutoSaveEnv where
  enabled : Bool
  saveInterval : Nat
  chatId : Str
  slotIndex : Option Nat
  saveOutcome : SaveOutcome

/-- Point update of the nested message-counter map. -/
def updCounter (chat name : Str) (v : Nat) (cs : Str → Str → Nat) :
    Str → Str → Nat :=
  fun ch n => if ch = chat ∧ n = name then v else cs ch n

theorem updCounter_same (chat name : Str) (v : Nat) (cs : Str → Str → Nat) :
    updCounter chat name v cs chat name = v := by
  simp [updCounter]

/-- src/unnamed/part_004 `incrementMessageCounter`: skip when disabled or
the name is falsy; otherwise increment the per-(chat, normalized name)
counter, and when it reaches the interval and the character holds a slot,
attempt a save — resetting the counter to zero only when the save reports
success (a false return or a thrown error leaves the incremented value).
Returns the new counters and whether a save was attempted. -/
def incrementMessageCounter (env : AutoSaveEnv) (characterName : Option Str)
    (counters : Str → Str → Nat) : (Str → Str → Nat) × Bool :=
  match env.enabled with
  | false => (counters, false)
  | true =>
    match characterName with
    | none => (counters, false)
    | some rawName =>
      if rawName = [] then (counters, false)
      else
        let name := normalizeCharacterName rawName
        let c := counters env.chatId name + 1
        let counters1 := updCounter env.chatId name c counters
        if env.saveInterval ≤ c then
          match env.slotIndex with
          | some _ =>
            match env.saveOutcome with
            | .ok => (updCounter env.chatId name 0 counters1, true)
            | _ => (counters1, true)
          | none => (counters1, false)
        else (counters1, false)

/-- C1: the per-(conversation, entity) counter is reset to zero iff the
triggered save reports success; a false return or a thrown error keeps the
incremented value, a save is attempted iff the interval is reached while
the entity holds a slot, and after a failed attempt the very next
increment (same chat, interval and a bound slot, any save outcome)
attempts the save again. -/
theorem claim_C1_counter_reset_iff_save_success (env : AutoSaveEnv)
    (rawName : Str) (counters : Str → Str → Nat)
    (hen : env.enabled = true) (hraw : rawName ≠ []) :
    ((incrementMessageCounter env (some rawName) counters).1 env.chatId
        (normalizeCharacterName rawName) = 0
      ↔ (env.saveInterval ≤ counters env.chatId (normalizeCharacterName rawName) + 1
          ∧ env.slotIndex.isSome = true ∧ env.saveOutcome = SaveOutcome.ok))
    ∧ (env.saveOutcome ≠ SaveOutcome.ok →
        (incrementMessageCounter env (some rawName) counters).1 env.chatId
          (normalizeCharacterName rawName)
        = counters env.chatId (normalizeCharacterName rawName) + 1)
    ∧ ((incrementMessageCounter env (some rawName) counters).2 = true
      ↔ (env.saveInterval ≤ counters env.chatId (normalizeCharacterName rawName) + 1
          ∧ env.slotIndex.isSome = true))
    ∧ (env.saveInterval ≤ counters env.chatId (normalizeCharacterName rawName) + 1 →
        env.saveOutcome ≠ SaveOutcome.ok →
        env.slotIndex.isSome = true →
        ∀ out2 : SaveOutcome,
          (incrementMessageCounter { env with saveOutcome := out2 } (some rawName)
            (incrementMessageCounter env (some rawName) counters).1).2 = true) := by
  obtain ⟨en, interval, chat, slotIdx, out⟩ := env
  dsimp only at hen ⊢
  subst hen
  dsimp only [incrementMessageCounter]
  simp only [if_neg hraw]
  by_cases hint : interval ≤ counters chat (normalizeCharacterName rawName) + 1
  · rw [if_pos hint]
    cases slotIdx with
    | none =>
      dsimp only
      simp only [updCounter_same, Option.isSome_none]
      refine ⟨?_, fun _ => trivial, ?_, ?_⟩
      · constructor
        · intro h
          omega
        · intro h
          exact absurd h.2.1 (by simp)
      · constructor
        · intro h
          exact absurd h (by simp)
        · intro h
          exact absurd h.2 (by simp)
      · intro _ _ hs
        exact absurd hs (by simp)
    | some k =>
      cases out with
      | ok =>
        dsimp only
        simp only [updCounter_same, Option.isSome_some]
        refine ⟨⟨fun _ => ⟨hint, trivial, trivial⟩, fun _ => trivial⟩, ?_, ?_, ?_⟩
        · intro hne
          exact absurd rfl hne
        · exact ⟨fun _ => ⟨hint, trivial⟩, fun _ => trivial⟩
        · intro _ hne
          exact absurd rfl hne
      | failed =>
        dsimp only
        simp only [updCounter_same, Option.isSome_some]
        refine ⟨?_, fun _ => trivial, ⟨fun _ => ⟨hint, trivial⟩, fun _ => trivial⟩, ?_⟩
        · constructor
          · intro h
            omega
          · intro h
            exact absurd h.2.2 (by simp)
        · intro _ _ _ out2
          rw [if_pos (by omega)]
          cases out2 with
          | ok => rfl
          | failed => rfl
          | thrown => rfl
      | thrown =>
        dsimp only
        simp only [updCounter_same, Option.isSome_some]
        refine ⟨?_, fun _ => trivial, ⟨fun _ => ⟨hint, trivial⟩, fun _ => trivial⟩, ?_⟩
        · constructor
          · intro h
            omega
          · intro h
            exact absurd h.2.2 (by simp)
        · intro _ _ _ out2
          rw [if_pos (by omega)]
          cases out2 with
          | ok => rfl
          | failed => rfl
          | thrown => rfl
  · rw [if_neg hint]
    dsimp only
    simp only [updCounter_same]
    refine ⟨?_, fun _ => trivial, ?_, ?_⟩
    · constructor
      · intro h
        omega
      · intro h
        exact absurd h.1 hint
    · constructor
      · intro h
        exact absurd h (by simp)
      · intro h
        exact absurd h.1 hint
    · intro hi
      exact absurd hi hint

/-- Witness for C1 at a concrete environment: interval 2, counter at 1,
slot bound, save failing. -/
theorem claim_C1_witness :
    ((incrementMessageCounter
        (AutoSaveEnv.mk true 2 (("c").data) (some 0) SaveOutcome.failed)
        (some (("Alice").data)) (fun _ _ => 1)).1 (("c").data)
        (normalizeCharacterName (("Alice").data)) = 0
      ↔ (2 ≤ (1 : Nat) + 1 ∧ (some 0 : Option Nat).isSome = true
          ∧ SaveOutcome.failed = SaveOutcome.ok))
    ∧ (SaveOutcome.failed ≠ SaveOutcome.ok →
        (incrementMessageCounter
          (AutoSaveEnv.mk true 2 (("c").data) (some 0) SaveOutcome.failed)
          (some (("Alice").data)) (fun _ _ => 1)).1 (("c").data)
          (normalizeCharacterName (("Alice").data)) = 1 + 1)
    ∧ ((incrementMessageCounter
        (AutoSaveEnv.mk true 2 (("c").data) (some 0) SaveOutcome.failed)
        (some (("Alice").data)) (fun _ _ => 1)).2 = true
      ↔ (2 ≤ (1 : Nat) + 1 ∧ (some 0 : Option Nat).isSome = true))
    ∧ (2 ≤ (1 : Nat) + 1 → SaveOutcome.failed ≠ SaveOutcome.ok →
        (some 0 : Option Nat).isSome = true →
        ∀ out2 : SaveOutcome,
          (incrementMessageCounter
            { AutoSaveEnv.mk true 2 (("c").data) (some 0) SaveOutcome.failed with
                saveOutcome := out2 }
            (some (("Alice").data))
            (incrementMessageCounter
              (AutoSaveEnv.mk true 2 (("c").data) (some 0) SaveOutcome.failed)
              (some (("Alice").data)) (fun _ _ => 1)).1).2 = true) :=
  claim_C1_counter_reset_iff_save_success
    (AutoSaveEnv.mk true 2 (("c").data) (some 0) SaveOutcome.failed)
    (("Alice").data) (fun _ _ => 1) (by decide) (by decide)


/-! ### Preload orchestrator (src/unnamed/part_000) -/

/-- Outcome of the completion / timeout / cancellation race for one
entity's generation (part_000 `Promise.race`): the generation settled in
time; the timeout fired first; the generation rejected with an abort-type
error; it rejected with another error (rethrown); or the poller observed
the cancellation flag. -/
inductive StepOutcome
  | completed
  | timeoutHit
  | abortErr
  | otherErr (msg : Str)
  | cancelledRace
deriving DecidableEq

/-- One batch entry together with the collaborator outcomes of its step:
`hasId` — the character id was found; `preCancel` — the cancellation flag
was observed at the checks before the generation is issued; `outcome` —
the race result; `slotAfter` — `getCurrentSlot()` after the generation
block; `saveOk` — the `saveCharacterCache` result; `cancelAfterSave` —
the flag check after the save block. -/
structure CharSpec where
  name : Str
  normalizedName : Str
  hasId : Bool
  preCancel : Bool
  outcome : StepOutcome
  slotAfter : Option Nat
  saveOk : Bool
  cancelAfterSave : Bool
deriving DecidableEq

/-- Calls the preload loop makes: issuing a generation
(`generateQuietPrompt`), aborting via `context.stopGeneration()`, and
saving a slot's cache, tagged with the batch position. -/
inductive PEvent
  | genStart (idx : Nat)
  | stopGen (idx : Nat)
  | saveCall (idx : Nat) (slot : Nat)
deriving DecidableEq

/-- The observable outcome of a preload run: warmed character names,
error strings, the cancellation flag shown in the final status, and the
call trace. -/
structure PreloadState where
  preloaded : List Str
  errors : List Str
  cancelled : Bool
  trace : List PEvent
deriving DecidableEq

/-- Error suffix for a missing character id (part_000 line 149). -/
def noIdMsg : Str := (": не найден ID персонажа").data

/-- Error suffix for a failed cache save (part_000 line 266). -/
def saveErrMsg : Str := (": ошибка сохранения кеша").data

/-- part_000 lines 257-268: after the generation block, read the
interceptor's slot and save it; on success record the name as warmed,
else push a save error. -/
def savePhase (idx : Nat) (c : CharSpec) (st : PreloadState) : PreloadState :=
  match c.slotAfter with
  | none => st
  | some s =>
    if c.saveOk then
      { st with
          trace := st.trace ++ [PEvent.saveCall idx s]
          preloaded := st.preloaded ++ [c.name] }
    else
      { st with
          trace := st.trace ++ [PEvent.saveCall idx s]
          errors := st.errors ++ [c.name ++ saveErrMsg] }

/-- part_000 lines 137-297, the per-character loop of
`preloadCharactersCache`: break when cancellation is observed before the
generation starts; skip (with an error) when the id is missing; otherwise
issue the generation and race it — on the poller observing cancellation
the backend abort is invoked twice (poller and post-race check) and the
loop breaks; a completed generation also invokes the abort once (line
234); a timeout or abort-type rejection is swallowed and falls through to
the save phase; any other rejection is recorded and the loop continues;
after the save phase the flag is checked once more. -/
def preloadLoop : Nat → List CharSpec → PreloadState → PreloadState
  | _, [], st => st
  | idx, c :: rest, st =>
    if c.preCancel then { st with cancelled := true }
    else if c.hasId = false then
      preloadLoop (idx + 1) rest
        { st with errors := st.errors ++ [c.name ++ noIdMsg] }
    else
      match c.outcome with
      | StepOutcome.cancelledRace =>
        { st with
            trace := st.trace ++ [PEvent.genStart idx, PEvent.stopGen idx,
              PEvent.stopGen idx]
            cancelled := true }
      | StepOutcome.otherErr msg =>
        preloadLoop (idx + 1) rest
          { st with
              trace := st.trace ++ [PEvent.genStart idx]
              errors := st.errors ++ [c.name ++ (": ").data ++ msg] }
      | StepOutcome.completed =>
        let st2 := savePhase idx c
          { st with trace := st.trace ++ [PEvent.genStart idx, PEvent.stopGen idx] }
        if c.cancelAfterSave then { st2 with cancelled := true }
        else preloadLoop (idx + 1) rest st2
      | StepOutcome.timeoutHit =>
        let st2 := savePhase idx c
          { st with trace := st.trace ++ [PEvent.genStart idx] }
        if c.cancelAfterSave then { st2 with cancelled := true }
        else preloadLoop (idx + 1) rest st2
      | StepOutcome.abortErr =>
        let st2 := savePhase idx c
          { st with trace := st.trace ++ [PEvent.genStart idx] }
        if c.cancelAfterSave then { st2 with cancelled := true }
        else preloadLoop (idx + 1) rest st2

/-- src/unnamed/part_000 `preloadCharactersCache` for a valid group chat:
run the loop over the batch and return true iff at least one character
was warmed (`preloaded.length > 0`). -/
def preloadCharactersCache (characters : List CharSpec) : Bool × PreloadState :=
  if characters.isEmpty then (false, PreloadState.mk [] [] false [])
  else
    (decide (0 < (preloadLoop 0 characters (PreloadState.mk [] [] false [])).preloaded.length),
      preloadLoop 0 characters (PreloadState.mk [] [] false []))

/-- Whether the loop stops after this character's step (cancellation
observed at any of its checks). -/
def stepBreaks (c : CharSpec) : Bool :=
  c.preCancel ||
    (c.hasId &&
      (match c.outcome with
       | StepOutcome.cancelledRace => true
       | StepOutcome.otherErr _ => false
       | _ => c.cancelAfterSave))

theorem savePhase_cancelled (idx : Nat) (c : CharSpec) (st : PreloadState) :
    (savePhase idx c st).cancelled = st.cancelled := by
  cases hso : c.slotAfter with
  | none => simp [savePhase, hso]
  | some s =>
    cases hs : c.saveOk with
    | true => simp [savePhase, hso, hs]
    | false => simp [savePhase, hso, hs]

theorem savePhase_genStart (idx : Nat) (c : CharSpec) (st : PreloadState)
    (j : Nat) (h : PEvent.genStart j ∈ (savePhase idx c st).trace) :
    PEvent.genStart j ∈ st.trace := by
  cases hso : c.slotAfter with
  | none =>
    rw [savePhase, hso] at h
    exact h
  | some s =>
    cases hs : c.saveOk with
    | true =>
      simp [savePhase, hso, hs] at h
      exact h
    | false =>
      simp [savePhase, hso, hs] at h
      exact h


theorem preloadLoop_cancel :
    ∀ (pre : List CharSpec) (idx : Nat) (ck : CharSpec) (post : List CharSpec)
      (st : PreloadState),
    (∀ cj ∈ pre, stepBreaks cj = false) →
    ck.hasId = true → ck.preCancel = false →
    ck.outcome = StepOutcome.cancelledRace →
    PEvent.stopGen (idx + pre.length) ∈ (preloadLoop idx (pre ++ ck :: post) st).trace
    ∧ (∀ j, PEvent.genStart j ∈ (preloadLoop idx (pre ++ ck :: post) st).trace →
        PEvent.genStart j ∈ st.trace ∨ j ≤ idx + pre.length)
    ∧ (preloadLoop idx (pre ++ ck :: post) st).cancelled = true := by
  intro pre
  induction pre with
  | nil =>
    intro idx ck post st hb hid hpc hout
    rw [List.nil_append, preloadLoop]
    rw [if_neg (by simp [hpc])]
    rw [if_neg (by simp [hid])]
    rw [hout]
    refine ⟨by simp, ?_, rfl⟩
    intro j hj
    rcases List.mem_append.mp hj with h | h
    · exact Or.inl h
    · right
      have : j = idx := by simpa using h
      omega
  | cons c pre ih =>
    intro idx ck post st hb hid hpc hout
    have hbc := hb c (List.mem_cons_self c pre)
    have hbr : ∀ cj ∈ pre, stepBreaks cj = false :=
      fun cj hcj => hb cj (List.mem_cons_of_mem c hcj)
    rw [stepBreaks] at hbc
    obtain ⟨hpcF, hrest⟩ := Bool.or_eq_false_iff.mp hbc
    rw [List.cons_append, preloadLoop]
    rw [if_neg (by simp [hpcF])]
    by_cases hcid : c.hasId = false
    · rw [if_pos hcid]
      obtain ⟨h1, h2, h3⟩ := ih (idx + 1) ck post
        { st with errors := st.errors ++ [c.name ++ noIdMsg] } hbr hid hpc hout
      refine ⟨?_, ?_, h3⟩
      · rw [List.length_cons,
          show idx + (pre.length + 1) = idx + 1 + pre.length from by omega]
        exact h1
      · intro j hj
        rcases h2 j hj with h | h
        · exact Or.inl h
        · right
          rw [List.length_cons]
          omega
    · have hcidT : c.hasId = true := by
        cases hc2 : c.hasId
        · exact absurd hc2 hcid
        · rfl
      rw [if_neg (by simp [hcidT])]
      have hX : (match c.outcome with
          | StepOutcome.cancelledRace => true
          | StepOutcome.otherErr _ => false
          | _ => c.cancelAfterSave) = false := by
        rw [hcidT] at hrest
        simpa using hrest
      cases houtc : c.outcome with
      | cancelledRace =>
        rw [houtc] at hX
        exact absurd hX (by simp)
      | otherErr msg =>
        dsimp only
        obtain ⟨h1, h2, h3⟩ := ih (idx + 1) ck post
          { st with
              trace := st.trace ++ [PEvent.genStart idx]
              errors := st.errors ++ [c.name ++ (": ").data ++ msg] }
          hbr hid hpc hout
        refine ⟨?_, ?_, h3⟩
        · rw [List.length_cons,
            show idx + (pre.length + 1) = idx + 1 + pre.length from by omega]
          exact h1
        · intro j hj
          rcases h2 j hj with h | h
          · rcases List.mem_append.mp h with h' | h'
            · exact Or.inl h'
            · right
              have : j = idx := by simpa using h'
              rw [List.length_cons]
              omega
          · right
            rw [List.length_cons]
            omega
      | completed =>
        rw [houtc] at hX
        dsimp only at hX
        dsimp only
        rw [if_neg (by simp [hX])]
        obtain ⟨h1, h2, h3⟩ := ih (idx + 1) ck post
          (savePhase idx c
            { st with trace := st.trace ++ [PEvent.genStart idx, PEvent.stopGen idx] })
          hbr hid hpc hout
        refine ⟨?_, ?_, h3⟩
        · rw [List.length_cons,
            show idx + (pre.length + 1) = idx + 1 + pre.length from by omega]
          exact h1
        · intro j hj
          rcases h2 j hj with h | h
          · have h' := savePhase_genStart idx c _ j h
            rcases List.mem_append.mp h' with h2' | h2'
            · exact Or.inl h2'
            · right
              have : j = idx := by simpa using h2'
              rw [List.length_cons]
              omega
          · right
            rw [List.length_cons]
            omega
      | timeoutHit =>
        rw [houtc] at hX
        dsimp only at hX
        dsimp only
        rw [if_neg (by simp [hX])]
        obtain ⟨h1, h2, h3⟩ := ih (idx + 1) ck post
          (savePhase idx c { st with trace := st.trace ++ [PEvent.genStart idx] })
          hbr hid hpc hout
        refine ⟨?_, ?_, h3⟩
        · rw [List.length_cons,
            show idx + (pre.length + 1) = idx + 1 + pre.length from by omega]
          exact h1
        · intro j hj
          rcases h2 j hj with h | h
          · have h' := savePhase_genStart idx c _ j h
            rcases List.mem_append.mp h' with h2' | h2'
            · exact Or.inl h2'
            · right
              have : j = idx := by simpa using h2'
              rw [List.length_cons]
              omega
          · right
            rw [List.length_cons]
            omega
      | abortErr =>
        rw [houtc] at hX
        dsimp only at hX
        dsimp only
        rw [if_neg (by simp [hX])]
        obtain ⟨h1, h2, h3⟩ := ih (idx + 1) ck post
          (savePhase idx c { st with trace := st.trace ++ [PEvent.genStart idx] })
          hbr hid hpc hout
        refine ⟨?_, ?_, h3⟩
        · rw [List.length_cons,
            show idx + (pre.length + 1) = idx + 1 + pre.length from by omega]
          exact h1
        · intro j hj
          rcases h2 j hj with h | h
          · have h' := savePhase_genStart idx c _ j h
            rcases List.mem_append.mp h' with h2' | h2'
            · exact Or.inl h2'
            · right
              have : j = idx := by simpa using h2'
              rw [List.length_cons]
              omega
          · right
            rw [List.length_cons]
            omega


/-- C4: once cancellation is observed during some entity's step (the
poller wins the race), the backend abort is invoked for that entity's
in-flight generation, no later entity's generation is ever started, and
the final status is marked cancelled. -/
theorem claim_C4_no_generation_after_cancel (pre post : List CharSpec)
    (ck : CharSpec)
    (hb : ∀ cj ∈ pre, stepBreaks cj = false)
    (hid : ck.hasId = true) (hpc : ck.preCancel = false)
    (hout : ck.outcome = StepOutcome.cancelledRace) :
    PEvent.stopGen pre.length ∈ (preloadCharactersCache (pre ++ ck :: post)).2.trace
    ∧ (∀ j, PEvent.genStart j ∈ (preloadCharactersCache (pre ++ ck :: post)).2.trace
        → j ≤ pre.length)
    ∧ (preloadCharactersCache (pre ++ ck :: post)).2.cancelled = true := by
  have hne : ¬ ((pre ++ ck :: post).isEmpty = true) := by
    cases pre with
    | nil => simp
    | cons a l => simp
  obtain ⟨h1, h2, h3⟩ := preloadLoop_cancel pre 0 ck post
    (PreloadState.mk [] [] false []) hb hid hpc hout
  rw [Nat.zero_add] at h1
  rw [preloadCharactersCache, if_neg hne]
  dsimp only
  refine ⟨h1, ?_, h3⟩
  intro j hj
  rcases h2 j hj with h | h
  · exact absurd h (by simp)
  · omega

/-- Witness for C4: batch `[A, B, C]` where cancellation is observed
during B's generation — B's abort is invoked, C is never started, and the
final status is cancelled. -/
theorem claim_C4_witness :
    PEvent.stopGen ([CharSpec.mk (("A").data) (("a").data) true false
        StepOutcome.completed (some 0) true false] : List CharSpec).length
      ∈ (preloadCharactersCache
        ([CharSpec.mk (("A").data) (("a").data) true false StepOutcome.completed
            (some 0) true false]
          ++ CharSpec.mk (("B").data) (("b").data) true false
              StepOutcome.cancelledRace none true false
            :: [CharSpec.mk (("C").data) (("c").data) true false
                StepOutcome.completed (some 2) true false])).2.trace
    ∧ (∀ j, PEvent.genStart j ∈ (preloadCharactersCache
        ([CharSpec.mk (("A").data) (("a").data) true false StepOutcome.completed
            (some 0) true false]
          ++ CharSpec.mk (("B").data) (("b").data) true false
              StepOutcome.cancelledRace none true false
            :: [CharSpec.mk (("C").data) (("c").data) true false
                StepOutcome.completed (some 2) true false])).2.trace
        → j ≤ ([CharSpec.mk (("A").data) (("a").data) true false
            StepOutcome.completed (some 0) true false] : List CharSpec).length)
    ∧ (preloadCharactersCache
        ([CharSpec.mk (("A").data) (("a").data) true false StepOutcome.completed
            (some 0) true false]
          ++ CharSpec.mk (("B").data) (("b").data) true false
              StepOutcome.cancelledRace none true false
            :: [CharSpec.mk (("C").data) (("c").data) true false
                StepOutcome.completed (some 2) true false])).2.cancelled = true :=
  claim_C4_no_generation_after_cancel
    [CharSpec.mk (("A").data) (("a").data) true false StepOutcome.completed
      (some 0) true false]
    [CharSpec.mk (("C").data) (("c").data) true false StepOutcome.completed
      (some 2) true false]
    (CharSpec.mk (("B").data) (("b").data) true false StepOutcome.cancelledRace
      none true false)
    (by decide) (by decide) (by decide) (by decide)

/-- C2 counterexample: batch `[A, B, C]` where A completes in time and B's
generation hits the timeout.  The code swallows the timeout: no abort is
issued for B (0 `stopGen 1` events instead of exactly 1), no Timeout error
entry is recorded (the error list is empty), B's bound slot is saved and B
is even counted as warmed, and C's generation IS started; the batch does
return true. -/
theorem claim_C2_counterexample :
    ¬ (((preloadCharactersCache
        [CharSpec.mk (("A").data) (("a").data) true false StepOutcome.completed
            (some 0) true false,
         CharSpec.mk (("B").data) (("b").data) true false StepOutcome.timeoutHit
            (some 1) true false,
         CharSpec.mk (("C").data) (("c").data) true false StepOutcome.completed
            (some 2) true false]).2.trace.count (PEvent.stopGen 1) = 1)
      ∧ PEvent.genStart 2 ∉ (preloadCharactersCache
        [CharSpec.mk (("A").data) (("a").data) true false StepOutcome.completed
            (some 0) true false,
         CharSpec.mk (("B").data) (("b").data) true false StepOutcome.timeoutHit
            (some 1) true false,
         CharSpec.mk (("C").data) (("c").data) true false StepOutcome.completed
            (some 2) true false]).2.trace
      ∧ (preloadCharactersCache
        [CharSpec.mk (("A").data) (("a").data) true false StepOutcome.completed
            (some 0) true false,
         CharSpec.mk (("B").data) (("b").data) true false StepOutcome.timeoutHit
            (some 1) true false,
         CharSpec.mk (("C").data) (("c").data) true false StepOutcome.completed
            (some 2) true false]).2.errors.length = 1)
    ∧ (preloadCharactersCache
        [CharSpec.mk (("A").data) (("a").data) true false StepOutcome.completed
            (some 0) true false,
         CharSpec.mk (("B").data) (("b").data) true false StepOutcome.timeoutHit
            (some 1) true false,
         CharSpec.mk (("C").data) (("c").data) true false StepOutcome.completed
            (some 2) true false]).1 = true := by
  refine ⟨?_, by decide⟩
  intro h
  exact absurd h.1 (by decide)

/-- C2 (amended): in a preload batch `[A, B, C]` where A's generation
completes within the timeout and its save succeeds, and B's generation
exceeds the timeout (its bound slot save succeeding as well): A is
persisted and the batch returns true, but the timeout is swallowed — no
backend abort is invoked at all for B, no Timeout error entry is recorded,
B's bound slot is saved as if the warm-up succeeded (B is counted as
warmed), C's generation IS started, and the run is not marked cancelled. -/
theorem claim_C2_timeout_swallowed (an ann bn bnn cn cnn : Str)
    (sa sb sc : Nat) :
    preloadCharactersCache
      [CharSpec.mk an ann true false StepOutcome.completed (some sa) true false,
       CharSpec.mk bn bnn true false StepOutcome.timeoutHit (some sb) true false,
       CharSpec.mk cn cnn true false StepOutcome.completed (some sc) true false]
    = (true, PreloadState.mk [an, bn, cn] [] false
        [PEvent.genStart 0, PEvent.stopGen 0, PEvent.saveCall 0 sa,
         PEvent.genStart 1, PEvent.saveCall 1 sb,
         PEvent.genStart 2, PEvent.stopGen 2, PEvent.saveCall 2 sc]) := rfl

end KVCache
